import Mathlib

/-!
Verification of the piece-placement and field-mutation engine of a
terminal Tetris game (sources: `main.cpp`, `tetris.c`, `tetris.cpp`).

The playfield is a flat `char` array of `FIELD_WIDTH * FIELD_HEIGHT`
cells, always accessed as `field[y * FIELD_WIDTH + x]` with
`x ∈ [0, FIELD_WIDTH)`.  We embed it as a total function
`Field := Int → Int → Char` where `f y x` stands for
`field[y * FIELD_WIDTH + x]`; every array access in the sources has the
shape `(row) * FIELD_WIDTH + (col)` with the column in `[0, FIELD_WIDTH)`,
so the flat array and the two-argument function are in exact
correspondence on the region the program touches.  Out-of-range accesses
(which would throw `std::out_of_range` or be undefined behaviour in the
sources) are noted in comments where the embedding makes a choice.
-/

namespace TetrisCurses

def FIELD_WIDTH : Int := 12

def FIELD_HEIGHT : Int := 18

/-- The playfield: `f y x` models `field[y * FIELD_WIDTH + x]`. -/
abbrev Field := Int → Int → Char

/-- Write one cell of the field (`field[y*FIELD_WIDTH+x] = c`). -/
def setCell (f : Field) (y x : Int) (c : Char) : Field :=
  fun y' x' => if y' = y ∧ x' = x then c else f y' x'

/-- The field as initialized at program start: border marker `'#'` in
column 0, column `FIELD_WIDTH - 1` and row `FIELD_HEIGHT - 1`, blank
elsewhere (`main.cpp` lines 88-97). -/
def initField : Field :=
  fun y x => if x = 0 ∨ x = FIELD_WIDTH - 1 ∨ y = FIELD_HEIGHT - 1 then '#' else ' '

/-- `getSideLength` from `main.cpp` (lines 576-592): side length of a
piece's bounding square from the sprite string length; any length other
than 4, 9, 16 leaves the initial value 0. -/
def getSideLength (pieceLength : Int) : Int :=
  if pieceLength = 4 then 2
  else if pieceLength = 9 then 3
  else if pieceLength = 16 then 4
  else 0

/-- `getPieceIndexForRotation` (arithmetic form, `main.cpp` lines 466-544
and `tetris.c` lines 485-558): flat sprite index for piece-local cell
`(x, y)` under a rotation.  `index` starts at 0; side lengths below 3
return it immediately, and a rotation matching no `case` leaves it 0. -/
def getPieceIndexForRotation (numPoints sideLength x y rotation : Int) : Int :=
  if sideLength < 3 then 0
  else if rotation = 0 then y * sideLength + x
  else if rotation = 1 then (numPoints - sideLength) + y - x * sideLength
  else if rotation = 2 then (numPoints - 1) - y * sideLength - x
  else if rotation = 3 then (sideLength - 1) - y + x * sideLength
  else 0

/-- `piece.at(i)` on the sprite string.  Indices produced by the engine
are always in range; an out-of-range index (which would throw in the
sources) is modelled as the blank character, i.e. an empty cell. -/
def spriteAt (piece : List Char) (i : Int) : Char :=
  if 0 ≤ i then piece.getD i.toNat ' ' else ' '

/-- `pieceDoesFit` from `main.cpp` (lines 547-573); `pieceCanFit` in
`tetris.c` is the same check.  For every non-blank sprite cell, the
target must not be left of column 1, at or right of column `FIELD_WIDTH`,
at or below row `FIELD_HEIGHT`, and the field cell there must be blank. -/
def pieceDoesFit (field : Field) (piece : List Char) (pieceX pieceY rotation : Int) : Bool :=
  let sideLength := getSideLength piece.length
  (List.range sideLength.toNat).all fun y =>
    (List.range sideLength.toNat).all fun x =>
      let pieceIndex := getPieceIndexForRotation piece.length sideLength x y rotation
      if spriteAt piece pieceIndex = ' ' then true
      else
        let isOutsideField : Bool :=
          decide (pieceX + x < 1) || decide (pieceX + x ≥ FIELD_WIDTH) ||
            decide (pieceY + y ≥ FIELD_HEIGHT)
        !isOutsideField && (field (pieceY + (y : Int)) (pieceX + (x : Int)) == ' ')

/-- The 3×3 rotation lookup table `threeRot` from `tetris.cpp`
(lines 79-96), indexed as `threeRot[rot][y][x]`. -/
def threeRot : List (List (List Int)) :=
  [ [[0, 1, 2], [3, 4, 5], [6, 7, 8]],
    [[6, 3, 0], [7, 4, 1], [8, 5, 2]],
    [[8, 7, 6], [5, 4, 3], [2, 1, 0]],
    [[2, 5, 8], [1, 4, 7], [0, 3, 6]] ]

/-- The 4×4 rotation lookup table `fourRot` from `tetris.cpp`
(lines 98-119), indexed as `fourRot[rot][y][x]`. -/
def fourRot : List (List (List Int)) :=
  [ [[0, 1, 2, 3], [4, 5, 6, 7], [8, 9, 10, 11], [12, 13, 14, 15]],
    [[12, 8, 4, 0], [13, 9, 5, 1], [14, 10, 6, 2], [15, 11, 7, 3]],
    [[15, 14, 13, 12], [11, 10, 9, 8], [7, 6, 5, 4], [3, 2, 1, 0]],
    [[3, 7, 11, 15], [2, 6, 10, 14], [1, 5, 9, 13], [0, 4, 8, 12]] ]

/-- `container.at(i)` with an `int` index: a negative or too-large index
throws `std::out_of_range`, modelled as `none`. -/
def atIdx {α : Type} (l : List α) (i : Int) : Option α :=
  if 0 ≤ i then l[i.toNat]? else none

/-- `getPieceIndexForRotation` (table form, `tetris.cpp` lines 498-538):
look the flat index up in `threeRot` / `fourRot`; side lengths other than
3 and 4 fall through to the `default` branch and return the initial 0.
`none` models a thrown `std::out_of_range` from `.at`. -/
def getPieceIndexForRotationTab (sidelen rot x y : Int) : Option Int :=
  if sidelen = 3 then do
    let byRot ← atIdx threeRot rot
    let byRow ← atIdx byRot y
    atIdx byRow x
  else if sidelen = 4 then do
    let byRot ← atIdx fourRot rot
    let byRow ← atIdx byRot y
    atIdx byRow x
  else pure 0

def U32MOD : Nat := 4294967296

/-- The scoring/leveling update run once per tick at the end of the game
loop (`main.cpp` lines 300-342, `tetris.c` lines 313-355).  The four
state variables are C `unsigned int`s, so additions are reduced modulo
2^32.  When lines were cleared: the line total grows by the count, the
score grows by the Nintendo-style award for the count, the ten-line
counter grows by the count and, on reaching 10, the level advances and
10 is subtracted from the counter.  (The `maxTicksPerLine` speed update
is omitted: it is not part of the score/level state.) -/
def updateScoring (score lines level counter : Nat) (numLinesToClear : Int) :
    Nat × Nat × Nat × Nat :=
  if 0 < numLinesToClear then
    let lines' := (lines + numLinesToClear.toNat) % U32MOD
    let gain : Nat :=
      if numLinesToClear = 1 then 40 * (level + 1)
      else if numLinesToClear = 2 then 100 * (level + 1)
      else if numLinesToClear = 3 then 300 * (level + 1)
      else if numLinesToClear = 4 then 1200 * (level + 1)
      else 0
    let score' := (score + gain) % U32MOD
    let counter' := (counter + numLinesToClear.toNat) % U32MOD
    if 10 ≤ counter' then (score', lines', (level + 1) % U32MOD, counter' - 10)
    else (score', lines', level, counter')
  else (score, lines, level, counter)

/-- C4: the arithmetic rotation index realizes the four fixed 3×3
permutations: rotation 0 is the row-major identity `y*3+x`; rotation 1
(90° CW) reads original column `y` bottom-to-top, i.e. cell `(x,y)` maps
to source cell (row `2-x`, col `y`), flat `(2-x)*3+y`; rotation 2 (180°)
is the full reversal `8-(y*3+x)`; rotation 3 (270° CW) reads original
column `2-y` top-to-bottom, i.e. flat `x*3+(2-y)`.  And for side lengths
3 and 4 alike, rotation 0 is the row-major identity. -/
theorem c4_rotation_permutations :
    (∀ x y : Int, 0 ≤ x → x < 3 → 0 ≤ y → y < 3 →
      getPieceIndexForRotation 9 3 x y 0 = y * 3 + x ∧
      getPieceIndexForRotation 9 3 x y 1 = (2 - x) * 3 + y ∧
      getPieceIndexForRotation 9 3 x y 2 = 8 - (y * 3 + x) ∧
      getPieceIndexForRotation 9 3 x y 3 = x * 3 + (2 - y)) ∧
    (∀ x y : Int, 0 ≤ x → x < 4 → 0 ≤ y → y < 4 →
      getPieceIndexForRotation 16 4 x y 0 = y * 4 + x) := by
  constructor
  · intro x y _ _ _ _
    refine ⟨?_, ?_, ?_, ?_⟩ <;> simp [getPieceIndexForRotation] <;> ring
  · intro x y _ _ _ _
    simp [getPieceIndexForRotation]

theorem c4_witness :
    (0 ≤ (1 : Int) ∧ (1 : Int) < 3 ∧ 0 ≤ (2 : Int) ∧ (2 : Int) < 3) ∧
      getPieceIndexForRotation 9 3 1 2 1 = (2 - 1) * 3 + 2 :=
  ⟨by decide,
    (c4_rotation_permutations.1 1 2 (by decide) (by decide) (by decide) (by decide)).2.1⟩

/-- C5: for side lengths 3 and 4, all four rotations and all in-bounds
cells, the table-based rotation index of `tetris.cpp` returns exactly the
flat index computed by the arithmetic form shared by `main.cpp` and
`tetris.c` (with `numPoints = s*s`). -/
theorem c5_table_matches_arithmetic :
    ∀ s : Nat, (s = 3 ∨ s = 4) → ∀ r : Nat, r < 4 → ∀ x : Nat, x < s → ∀ y : Nat, y < s →
      getPieceIndexForRotationTab (s : Int) (r : Int) (x : Int) (y : Int) =
        some (getPieceIndexForRotation ((s : Int) * (s : Int)) (s : Int) (x : Int) (y : Int) (r : Int)) := by
  intro s hs
  rcases hs with h | h <;> subst h <;> decide

theorem c5_witness :
    ((3 : Nat) = 3 ∨ (3 : Nat) = 4) ∧ (1 : Nat) < 4 ∧ (2 : Nat) < 3 ∧ (0 : Nat) < 3 ∧
      getPieceIndexForRotationTab 3 1 2 0 = some (getPieceIndexForRotation (3 * 3) 3 2 0 1) :=
  ⟨Or.inl rfl, by decide, by decide, by decide,
    c5_table_matches_arithmetic 3 (Or.inl rfl) 1 (by decide) 2 (by decide) 0 (by decide)⟩

/-- C7 counterexample: the claim says `index(2, r, x, y) = y*2 + x`; at
rotation 0 and cell `(x, y) = (1, 0)` the code returns 0, not
`0*2 + 1 = 1`, because side lengths below 3 take the early
`return index` with `index` still 0. -/
theorem c7_counterexample :
    getPieceIndexForRotation 4 2 1 0 0 ≠ 0 * 2 + 1 := by decide

/-- C7 amended: for the 2×2 piece the rotation index is the constant 0
for every rotation and every cell, in both the arithmetic and the table
implementations — not the identity map `y*2+x`.  (The rendered result is
still rotation-invariant because all four cells of the "OOOO" sprite
hold the same mark.) -/
theorem c7_o_piece_index_is_zero :
    ∀ x y rotation : Int,
      getPieceIndexForRotation 4 2 x y rotation = 0 ∧
      getPieceIndexForRotationTab 2 rotation x y = some 0 := by
  intro x y r
  refine ⟨by simp [getPieceIndexForRotation], ?_⟩
  simp [getPieceIndexForRotationTab, pure]

/-- C9 counterexample: the claim says an out-of-range rotation or an
unsupported side length aborts (ContractViolation) rather than silently
returning a flat index.  In `main.cpp`/`tetris.c`, rotation 4 on a 3×3
piece silently returns the flat index 0 — the same value as rotation 0
at the origin — and an unsupported sprite length (7 gives side length 0
via `getSideLength`) silently returns 0 as well. -/
theorem c9_counterexample :
    getPieceIndexForRotation 9 3 0 0 4 = 0 ∧
    getPieceIndexForRotation 9 3 0 0 4 = getPieceIndexForRotation 9 3 0 0 0 ∧
    getSideLength 7 = 0 ∧ getPieceIndexForRotation 7 (getSideLength 7) 1 1 0 = 0 := by
  decide

/-- C9 amended: a side length below 3 (in particular the 0 produced by
`getSideLength` for unsupported sprite lengths), or a rotation outside
{0,1,2,3}, makes the arithmetic rotation index silently return the flat
index 0; no abort of any kind occurs. -/
theorem c9_invalid_args_return_zero
    (numPoints sideLength x y rotation : Int)
    (h : sideLength < 3 ∨
      ¬(rotation = 0 ∨ rotation = 1 ∨ rotation = 2 ∨ rotation = 3)) :
    getPieceIndexForRotation numPoints sideLength x y rotation = 0 := by
  unfold getPieceIndexForRotation
  rcases h with h | h
  · rw [if_pos h]
  · push_neg at h
    obtain ⟨h0, h1, h2, h3⟩ := h
    simp [h0, h1, h2, h3]

theorem c9_witness :
    ((3 : Int) < 3 ∨
      ¬((5 : Int) = 0 ∨ (5 : Int) = 1 ∨ (5 : Int) = 2 ∨ (5 : Int) = 3)) ∧
      getPieceIndexForRotation 9 3 0 0 5 = 0 :=
  ⟨by decide, c9_invalid_args_return_zero 9 3 0 0 5 (by decide)⟩

/-- C8 counterexample: the claim says all four score/level state fields
are non-decreasing tick over tick.  From (score 0, lines 9, level 0,
ten-line counter 9), clearing 4 lines drives the counter to 13, the
level-up branch fires and subtracts 10, leaving the counter at 3 — a
decrease from 9. -/
theorem c8_counterexample :
    (updateScoring 0 9 0 9 4).2.2.2 = 3 ∧ (3 : Nat) < 9 := by decide

/-- C8 amended: score, total lines cleared, and level are non-decreasing
across a tick (absent unsigned 32-bit wraparound, excluded here by the
bounds), but the lines-since-last-level-up counter is not: it drops by
10 whenever it reaches 10 and the level advances. -/
theorem c8_score_lines_level_monotone
    (score lines level counter : Nat) (numLinesToClear : Int)
    (hs : score + 1200 * (level + 1) < U32MOD) (hl : lines + 4 < U32MOD)
    (hlev : level + 1 < U32MOD) (hc : counter + 4 < U32MOD)
    (hn : 0 ≤ numLinesToClear ∧ numLinesToClear ≤ 4) :
    score ≤ (updateScoring score lines level counter numLinesToClear).1 ∧
    lines ≤ (updateScoring score lines level counter numLinesToClear).2.1 ∧
    level ≤ (updateScoring score lines level counter numLinesToClear).2.2.1 := by
  obtain ⟨hn0, hn4⟩ := hn
  simp only [U32MOD] at *
  interval_cases numLinesToClear <;>
    simp only [updateScoring, U32MOD] <;>
    norm_num <;>
    (try split) <;>
    norm_num <;>
    omega

theorem c8_witness :
    (100 + 1200 * (0 + 1) < U32MOD ∧ 5 + 4 < U32MOD ∧ 0 + 1 < U32MOD ∧
        3 + 4 < U32MOD ∧ (0 ≤ (2 : Int) ∧ (2 : Int) ≤ 4)) ∧
      100 ≤ (updateScoring 100 5 0 3 2).1 ∧
      5 ≤ (updateScoring 100 5 0 3 2).2.1 ∧
      0 ≤ (updateScoring 100 5 0 3 2).2.2.1 :=
  ⟨by decide,
    c8_score_lines_level_monotone 100 5 0 3 2 (by decide) (by decide) (by decide)
      (by decide) (by decide)⟩

/-- The "OO" / "OO" sprite (`tetromino[3]` in `main.cpp`). -/
def oPiece : List Char := ['O', 'O', 'O', 'O']

/-- A field with every cell blank: NOT a game field (its border cells
are empty); used to exhibit that `pieceDoesFit` relies on the border
cells being non-empty rather than checking `col = FIELD_WIDTH - 1` or
`row = FIELD_HEIGHT - 1` explicitly. -/
def blankField : Field := fun _ _ => ' '

/-- A sprite cell is "filled" at piece-local `(dx, dy)` under a rotation:
the character at the rotated flat index is not blank.  (Same lookup as
in `pieceDoesFit` and in the merge loop of `main`.) -/
def pieceFilled (piece : List Char) (dx dy rotation : Int) : Prop :=
  spriteAt piece
      (getPieceIndexForRotation piece.length (getSideLength piece.length) dx dy rotation) ≠ ' '

instance (piece : List Char) (dx dy rotation : Int) :
    Decidable (pieceFilled piece dx dy rotation) := by
  unfold pieceFilled; infer_instance

/-- `pieceDoesFit` returns `true` exactly when every filled sprite cell
lands at a column in `[1, FIELD_WIDTH)`, a row below `FIELD_HEIGHT`, and
on a blank field cell — the literal loop condition of the source. -/
theorem pieceDoesFit_eq_true_iff
    (field : Field) (piece : List Char) (pieceX pieceY rotation : Int) :
    pieceDoesFit field piece pieceX pieceY rotation = true ↔
      ∀ dy : Nat, dy < (getSideLength piece.length).toNat →
      ∀ dx : Nat, dx < (getSideLength piece.length).toNat →
        pieceFilled piece dx dy rotation →
        (1 ≤ pieceX + dx ∧ pieceX + dx < FIELD_WIDTH ∧ pieceY + dy < FIELD_HEIGHT ∧
          field (pieceY + dy) (pieceX + dx) = ' ') := by
  unfold pieceDoesFit pieceFilled
  simp only [List.all_eq_true, List.mem_range]
  constructor
  · intro h dy hdy dx hdx hfill
    have hb := h dy hdy dx hdx
    rw [if_neg hfill] at hb
    simp only [Bool.and_eq_true, Bool.not_eq_true', Bool.or_eq_false_iff,
      decide_eq_false_iff_not, not_lt, not_le, beq_iff_eq] at hb
    exact ⟨hb.1.1.1, hb.1.1.2, hb.1.2, hb.2⟩
  · intro h dy hdy dx hdx
    by_cases hfill :
        spriteAt piece
          (getPieceIndexForRotation (piece.length : Int) (getSideLength piece.length)
            (dx : Int) (dy : Int) rotation) = ' '
    · rw [if_pos hfill]
    · rw [if_neg hfill]
      obtain ⟨h1, h2, h3, h4⟩ := h dy hdy dx hdx hfill
      simp only [Bool.and_eq_true, Bool.not_eq_true', Bool.or_eq_false_iff,
        decide_eq_false_iff_not, not_lt, not_le, beq_iff_eq]
      exact ⟨⟨⟨h1, h2⟩, h3⟩, h4⟩

/-- C2 counterexample: the claim quantifies over every field, but the
code checks `col >= FIELD_WIDTH`, not `col >= FIELD_WIDTH - 1`, and
checks neither `row = FIELD_HEIGHT - 1` nor emptiness for out-of-field
cells: it relies on the border cells holding `'#'`.  On an (unreachable)
all-blank field, the O piece at `(10, 0)` has a filled cell on column
`FIELD_WIDTH - 1 = 11`, yet `pieceDoesFit` returns `true`. -/
theorem c2_counterexample :
    pieceDoesFit blankField oPiece 10 0 0 = true ∧
    pieceFilled oPiece 1 0 0 ∧ (10 : Int) + 1 = FIELD_WIDTH - 1 := by decide

/-- C2 amended: restricted to fields whose side-border columns and
bottom-border row are non-empty (the Field invariant) and to
non-negative piece rows, `pieceDoesFit` returns `false` iff some filled
cell of the rotated sprite maps to a column outside `[1, FIELD_WIDTH-2]`,
to a row at or past the bottom border row `FIELD_HEIGHT-1`, or onto a
non-empty field cell; blank sprite cells never cause rejection.  In
particular every placement with a filled cell on column 0, column
`FIELD_WIDTH-1`, or row `FIELD_HEIGHT-1` is rejected. -/
theorem c2_pieceDoesFit_rejection
    (field : Field) (piece : List Char) (pieceX pieceY rotation : Int)
    (hborder : ∀ y : Nat, y < 18 → field y 0 ≠ ' ' ∧ field y (FIELD_WIDTH - 1) ≠ ' ')
    (hbottom : ∀ x : Nat, x < 12 → field (FIELD_HEIGHT - 1) x ≠ ' ')
    (hY : 0 ≤ pieceY)
    (_hlen : piece.length = 4 ∨ piece.length = 9 ∨ piece.length = 16)
    (_hrot : rotation = 0 ∨ rotation = 1 ∨ rotation = 2 ∨ rotation = 3) :
    (pieceDoesFit field piece pieceX pieceY rotation = false ↔
      ∃ dy : Nat, dy < (getSideLength piece.length).toNat ∧
      ∃ dx : Nat, dx < (getSideLength piece.length).toNat ∧
        pieceFilled piece dx dy rotation ∧
        (pieceX + dx < 1 ∨ FIELD_WIDTH - 2 < pieceX + dx ∨
          FIELD_HEIGHT - 1 ≤ pieceY + dy ∨ field (pieceY + dy) (pieceX + dx) ≠ ' ')) ∧
    (∀ dy : Nat, dy < (getSideLength piece.length).toNat →
     ∀ dx : Nat, dx < (getSideLength piece.length).toNat →
        pieceFilled piece dx dy rotation →
        (pieceX + dx = 0 ∨ pieceX + dx = FIELD_WIDTH - 1 ∨ pieceY + dy = FIELD_HEIGHT - 1) →
        pieceDoesFit field piece pieceX pieceY rotation = false) := by
  have key :
      pieceDoesFit field piece pieceX pieceY rotation = false ↔
        ∃ dy : Nat, dy < (getSideLength piece.length).toNat ∧
        ∃ dx : Nat, dx < (getSideLength piece.length).toNat ∧
          pieceFilled piece dx dy rotation ∧
          (pieceX + dx < 1 ∨ FIELD_WIDTH - 2 < pieceX + dx ∨
            FIELD_HEIGHT - 1 ≤ pieceY + dy ∨ field (pieceY + dy) (pieceX + dx) ≠ ' ') := by
    rw [Bool.eq_false_iff, Ne, pieceDoesFit_eq_true_iff]
    unfold FIELD_WIDTH FIELD_HEIGHT
    push_neg
    constructor
    · rintro ⟨dy, hdy, dx, hdx, hfill, hbad⟩
      refine ⟨dy, hdy, dx, hdx, hfill, ?_⟩
      by_cases h1 : pieceX + (dx : Int) < 1
      · exact Or.inl h1
      by_cases h2 : (12 : Int) ≤ pieceX + dx
      · exact Or.inr (Or.inl (by omega))
      by_cases h3 : (18 : Int) ≤ pieceY + dy
      · exact Or.inr (Or.inr (Or.inl (by omega)))
      push_neg at h1 h2 h3
      rcases hbad h1 (by omega) (by omega) with hcell
      exact Or.inr (Or.inr (Or.inr hcell))
    · rintro ⟨dy, hdy, dx, hdx, hfill, hbad⟩
      refine ⟨dy, hdy, dx, hdx, hfill, ?_⟩
      intro h1 h2 h3
      rcases hbad with hb | hb | hb | hb
      · omega
      · -- the column is 11: that cell is on the side border, hence non-blank
        have hcol : pieceX + (dx : Int) = 11 := by omega
        have hrow : pieceY + (dy : Int) = ((pieceY + (dy : Int)).toNat : Int) := by omega
        have hbord := (hborder (pieceY + (dy : Int)).toNat (by omega)).2
        unfold FIELD_WIDTH at hbord
        rw [← hrow] at hbord
        rw [hcol]
        exact fun hc => hbord (by norm_num; exact hc)
      · -- the row is 17: that cell is on the bottom border, hence non-blank
        have hrow : pieceY + (dy : Int) = 17 := by omega
        have hcol : pieceX + (dx : Int) = (((pieceX + (dx : Int)).toNat : Int)) := by omega
        have hbord := hbottom (pieceX + (dx : Int)).toNat (by omega)
        unfold FIELD_HEIGHT at hbord
        rw [← hcol] at hbord
        rw [hrow]
        exact fun hc => hbord (by norm_num; exact hc)
      · exact hb
  refine ⟨key, ?_⟩
  intro dy hdy dx hdx hfill hcell
  rw [key]
  refine ⟨dy, hdy, dx, hdx, hfill, ?_⟩
  unfold FIELD_WIDTH FIELD_HEIGHT at hcell ⊢
  rcases hcell with h | h | h
  · exact Or.inl (by omega)
  · exact Or.inr (Or.inl (by omega))
  · exact Or.inr (Or.inr (Or.inl (by omega)))

theorem c2_witness :
    ((∀ y : Nat, y < 18 → initField y 0 ≠ ' ' ∧ initField y (FIELD_WIDTH - 1) ≠ ' ') ∧
      (∀ x : Nat, x < 12 → initField (FIELD_HEIGHT - 1) x ≠ ' ') ∧
      (0 : Int) ≤ 1 ∧
      (oPiece.length = 4 ∨ oPiece.length = 9 ∨ oPiece.length = 16) ∧
      ((0 : Int) = 0 ∨ (0 : Int) = 1 ∨ (0 : Int) = 2 ∨ (0 : Int) = 3)) ∧
    ((pieceDoesFit initField oPiece 4 1 0 = false ↔
      ∃ dy : Nat, dy < (getSideLength oPiece.length).toNat ∧
      ∃ dx : Nat, dx < (getSideLength oPiece.length).toNat ∧
        pieceFilled oPiece dx dy 0 ∧
        ((4 : Int) + dx < 1 ∨ FIELD_WIDTH - 2 < (4 : Int) + dx ∨
          FIELD_HEIGHT - 1 ≤ (1 : Int) + dy ∨ initField ((1 : Int) + dy) ((4 : Int) + dx) ≠ ' ')) ∧
    (∀ dy : Nat, dy < (getSideLength oPiece.length).toNat →
     ∀ dx : Nat, dx < (getSideLength oPiece.length).toNat →
        pieceFilled oPiece dx dy 0 →
        ((4 : Int) + dx = 0 ∨ (4 : Int) + dx = FIELD_WIDTH - 1 ∨ (1 : Int) + dy = FIELD_HEIGHT - 1) →
        pieceDoesFit initField oPiece 4 1 0 = false)) :=
  ⟨⟨by decide, by decide, by decide, by decide, by decide⟩,
    c2_pieceDoesFit_rejection initField oPiece 4 1 0 (by decide) (by decide) (by decide)
      (by decide) (by decide)⟩

/-- The lock/merge block of `main` (`main.cpp` lines 229-244): every
non-blank sprite cell of the piece is written into the field at
`(currentY + y, currentX + x)`. -/
def addPieceToField (f : Field) (piece : List Char) (currentX currentY rotation : Int) : Field :=
  let sideLength := getSideLength piece.length
  (List.range sideLength.toNat).foldl
    (fun g (y : Nat) =>
      (List.range sideLength.toNat).foldl
        (fun g2 (x : Nat) =>
          let pieceIndex := getPieceIndexForRotation piece.length sideLength x y rotation
          let charSprite := spriteAt piece pieceIndex
          if charSprite ≠ ' ' then setCell g2 (currentY + (y : Int)) (currentX + (x : Int)) charSprite
          else g2)
        g)
    f

/-- The inner full-row scan of the line-clear check (`main.cpp` lines
257-266): a row is full when no interior column `x ∈ [1, FIELD_WIDTH-2]`
holds a blank. -/
def rowIsFull (f : Field) (r : Int) : Bool :=
  (List.range 10).all fun k => !(f r ((k : Int) + 1) == ' ')

/-- Rewriting a full row with the pending-clear marker (`main.cpp` lines
268-275): every interior column of the row receives `'='`. -/
def writeRowClear (f : Field) (r : Int) : Field :=
  (List.range 10).foldl (fun g (k : Nat) => setCell g r ((k : Int) + 1) '=') f

/-- The line-clear detection loop after a lock (`main.cpp` lines
247-281), recursing over the remaining row offsets of the piece's
bounding square.  The `break` at `currentY + y >= FIELD_HEIGHT - 1`
returns immediately; a full row is rewritten with `'='`, counted, and
recorded as the lowest line to clear. -/
def checkLinesAux (f : Field) (currentY : Int) :
    List Nat → Int → Int → Field × Int × Int
  | [], num, low => (f, num, low)
  | y :: rest, num, low =>
    if FIELD_HEIGHT - 1 ≤ currentY + (y : Int) then (f, num, low)
    else if rowIsFull f (currentY + (y : Int)) then
      checkLinesAux (writeRowClear f (currentY + (y : Int))) currentY rest
        (num + 1) (currentY + (y : Int))
    else checkLinesAux f currentY rest num low

/-- The full detection pass over the rows spanned by the piece's
bounding square, with `numLinesToClear` and `lowestLineToClear` starting
at 0 as in `main`. -/
def checkLines (f : Field) (currentY sideLength : Int) : Field × Int × Int :=
  checkLinesAux f currentY (List.range sideLength.toNat) 0 0

theorem setCell_ne (f : Field) (y x : Int) (c : Char) (y' x' : Int)
    (h : ¬(y' = y ∧ x' = x)) : setCell f y x c y' x' = f y' x' := if_neg h

theorem writeRowClear_apply (f : Field) (r y x : Int) :
    writeRowClear f r y x = if y = r ∧ 1 ≤ x ∧ x ≤ 10 then '=' else f y x := by
  have general : ∀ n : Nat, n ≤ 10 →
      ((List.range n).foldl (fun g (k : Nat) => setCell g r ((k : Int) + 1) '=') f) y x =
        if y = r ∧ 1 ≤ x ∧ x ≤ (n : Int) then '=' else f y x := by
    intro n
    induction n with
    | zero =>
      intro _
      simp only [List.range_zero, List.foldl_nil]
      rw [if_neg (by rintro ⟨_, h1, h2⟩; omega)]
    | succ m ih =>
      intro hm
      rw [List.range_succ, List.foldl_append]
      simp only [List.foldl_cons, List.foldl_nil]
      have hset : ∀ G : Field,
          setCell G r ((m : Int) + 1) '=' y x =
            if y = r ∧ x = (m : Int) + 1 then '=' else G y x := fun G => rfl
      rw [hset]
      by_cases hcase : y = r ∧ x = (m : Int) + 1
      · rw [if_pos hcase, if_pos ⟨hcase.1, by omega, by omega⟩]
      · rw [if_neg hcase, ih (by omega)]
        by_cases hin : y = r ∧ 1 ≤ x ∧ x ≤ (m : Int)
        · rw [if_pos hin, if_pos ⟨hin.1, by omega, by omega⟩]
        · rw [if_neg hin, if_neg (by push_neg at hcase hin ⊢; intro h1 h2; omega)]
  exact general 10 le_rfl

theorem rowIsFull_eq_true_iff (f : Field) (r : Int) :
    rowIsFull f r = true ↔ ∀ k : Nat, k < 10 → f r ((k : Int) + 1) ≠ ' ' := by
  unfold rowIsFull
  simp [List.all_eq_true]

/-- `rowIsFull` only looks at the cells of its own row. -/
theorem rowIsFull_congr (f g : Field) (r : Int) (h : ∀ x : Int, f r x = g r x) :
    rowIsFull f r = rowIsFull g r := by
  unfold rowIsFull
  congr 1
  funext k
  rw [h]

theorem getSideLength_nonneg (n : Int) : 0 ≤ getSideLength n := by
  unfold getSideLength
  split <;> [norm_num; split <;> [norm_num; split <;> norm_num]]

/-- Characterization of the detection loop over the row offsets
`[a, a+k)`: exactly the spanned rows strictly above the bottom border
whose interior is full get `'='` written across their interior; every
other cell is untouched. -/
theorem checkLinesAux_field (Y r c : Int) :
    ∀ (k a : Nat) (f : Field) (num low : Int),
      (checkLinesAux f Y (List.range' a k) num low).1 r c =
        if (a : Int) ≤ r - Y ∧ r - Y < (a : Int) + (k : Int) ∧ r ≤ 16 ∧
            rowIsFull f r = true ∧ 1 ≤ c ∧ c ≤ 10 then '='
        else f r c := by
  intro k
  induction k with
  | zero =>
    intro a f num low
    simp only [List.range', checkLinesAux]
    rw [if_neg (by rintro ⟨h1, h2, -⟩; omega)]
  | succ m ih =>
    intro a f num low
    rw [List.range'_succ]
    show (checkLinesAux f Y ((a : Nat) :: List.range' (a + 1) m) num low).1 r c = _
    unfold checkLinesAux
    by_cases hstop : FIELD_HEIGHT - 1 ≤ Y + (a : Int)
    · rw [if_pos hstop]
      unfold FIELD_HEIGHT at hstop
      rw [if_neg (by rintro ⟨h1, -, h3, -⟩; omega)]
    · rw [if_neg hstop]
      unfold FIELD_HEIGHT at hstop
      by_cases hfull : rowIsFull f (Y + (a : Int)) = true
      · rw [if_pos hfull]
        rw [ih]
        have hwr : ∀ r' c' : Int, writeRowClear f (Y + (a : Int)) r' c' =
            if r' = Y + (a : Int) ∧ 1 ≤ c' ∧ c' ≤ 10 then '=' else f r' c' :=
          fun r' c' => writeRowClear_apply f (Y + (a : Int)) r' c'
        by_cases hr : r = Y + (a : Int)
        · rw [if_neg (by rintro ⟨h1, -⟩; omega)]
          rw [hwr]
          by_cases hcint : 1 ≤ c ∧ c ≤ 10
          · rw [if_pos ⟨hr, hcint⟩,
              if_pos ⟨by omega, by omega, by omega, by rwa [hr], hcint⟩]
          · rw [if_neg (by rintro ⟨-, hc2⟩; exact hcint hc2),
              if_neg (by rintro ⟨-, -, -, -, hc1, hc2⟩; exact hcint ⟨hc1, hc2⟩)]
        · have hfc : rowIsFull (writeRowClear f (Y + (a : Int))) r = rowIsFull f r :=
            rowIsFull_congr _ _ _ (fun x => by rw [hwr, if_neg (fun hh => hr hh.1)])
          rw [hfc]
          have hcell : writeRowClear f (Y + (a : Int)) r c = f r c := by
            rw [hwr, if_neg (fun hh => hr hh.1)]
          rw [hcell]
          refine if_congr ⟨?_, ?_⟩ rfl rfl
          · rintro ⟨h1, h2, h3⟩
            exact ⟨by omega, by omega, h3⟩
          · rintro ⟨h1, h2, h3⟩
            exact ⟨by omega, by omega, h3⟩
      · rw [if_neg hfull]
        rw [ih]
        by_cases hr : r = Y + (a : Int)
        · rw [if_neg (by rintro ⟨h1, -⟩; omega),
            if_neg (by rintro ⟨-, -, -, h4, -⟩; rw [hr] at h4; exact hfull h4)]
        · refine if_congr ⟨?_, ?_⟩ rfl rfl
          · rintro ⟨h1, h2, h3⟩
            exact ⟨by omega, by omega, h3⟩
          · rintro ⟨h1, h2, h3⟩
            exact ⟨by omega, by omega, h3⟩

/-- C3: immediately after a lock, the detection step rewrites with the
pending-clear marker `'='` exactly the interior of those rows spanned by
the piece's bounding square that lie strictly above the bottom border
row and whose interior columns `[1, FIELD_WIDTH-2]` are all non-empty in
the post-lock field; every other cell — rows with an empty interior
cell, rows outside the bounding square, border columns — is left exactly
as the lock-merge left it. -/
theorem c3_detection_marks_exactly_full_spanned_rows
    (f : Field) (piece : List Char) (currentX currentY rotation : Int) (r c : Int) :
    (checkLines (addPieceToField f piece currentX currentY rotation) currentY
        (getSideLength piece.length)).1 r c =
      if currentY ≤ r ∧ r < currentY + getSideLength piece.length ∧
          r ≤ FIELD_HEIGHT - 2 ∧
          rowIsFull (addPieceToField f piece currentX currentY rotation) r = true ∧
          1 ≤ c ∧ c ≤ FIELD_WIDTH - 2 then '='
      else addPieceToField f piece currentX currentY rotation r c := by
  unfold checkLines
  rw [List.range_eq_range', checkLinesAux_field]
  have hs : ((getSideLength piece.length).toNat : Int) = getSideLength piece.length :=
    Int.toNat_of_nonneg (getSideLength_nonneg _)
  unfold FIELD_HEIGHT FIELD_WIDTH
  refine if_congr ⟨?_, ?_⟩ rfl rfl
  · rintro ⟨h1, h2, h3, h4⟩
    exact ⟨by omega, by omega, by omega, h4⟩
  · rintro ⟨h1, h2, h3, h4⟩
    exact ⟨by omega, by omega, by omega, h4⟩

/-- `[k-1, k-2, ..., 0]`: the descending row order of the shift loop
`for (y = lowestLineToClear; y >= 0; y--)`. -/
def downFrom : Nat → List Nat
  | 0 => []
  | k + 1 => k :: downFrom k

/-- The scan counting contiguous pending-clear rows (`main.cpp` lines
395-400): starting at the given row and moving upward one row at a time,
count rows whose column-1 cell is `'='`.  The sources index
`field[(row)*FIELD_WIDTH + 1]` and would run off the top of the array if
every row down to 0 were marked; in reachable states rows 0 and 1 are
never marked, so the scan always stops; the model stops at row 0. -/
def numEqRowsFrom (f : Field) : Nat → Nat
  | 0 => if f 0 1 = '=' then 1 else 0
  | n + 1 => if f ((n : Int) + 1) 1 = '=' then numEqRowsFrom f n + 1 else 0

/-- The search for the next line to clear (`main.cpp` lines 428-436):
`do { lowestLineToClear--; } while (field[...] != '=')`.  Called with the
current `lowestLineToClear`, it tests rows `lowestLineToClear - 1`,
`lowestLineToClear - 2`, ... and returns the first whose column-1 cell is
`'='`.  `none` models the scan running off the top of the array
(unreachable when a marked row is known to remain). -/
def findEqRowBelow (f : Field) : Nat → Option Nat
  | 0 => none
  | k + 1 => if f (k : Int) 1 = '=' then some k else findEqRowBelow f k

/-- The in-place compaction pass (`main.cpp` lines 406-423): for
`y = lowestLineToClear` down to 0 and each interior column, rows
`y <= numFullContiguousLines` are blanked and every other row receives
the current contents of row `y - numFullContiguousLines`.  The loop
reads `field` in place, exactly as the source does. -/
def shiftRowsDown (f : Field) (lowestLineToClear numFullContiguousLines : Int) : Field :=
  (downFrom (lowestLineToClear + 1).toNat).foldl
    (fun g (yn : Nat) =>
      (List.range 10).foldl
        (fun g2 (k : Nat) =>
          if (yn : Int) ≤ numFullContiguousLines then
            setCell g2 (yn : Int) ((k : Int) + 1) ' '
          else
            setCell g2 (yn : Int) ((k : Int) + 1) (g2 ((yn : Int) - numFullContiguousLines) ((k : Int) + 1)))
        g)
    f

/-- The `while (numLinesToClear > 0)` loop of `clearLinesFromField`
(`main.cpp` lines 388-438), with an explicit iteration bound: every pass
removes `numFullContiguousLines >= 1` from `numLinesToClear`, so
`numLinesToClear.toNat` passes always suffice and the bound never cuts
the loop short (`clearLinesLoop_spec` is proved under
`numLinesToClear.toNat <= fuel`).  The `none` branch of the search is
unreachable for valid inputs: when lines remain to clear, a marked row
remains below the top. -/
def clearLinesLoop : Nat → Field → Int → Int → Field
  | 0, f, _, _ => f
  | fuel + 1, f, numLinesToClear, lowestLineToClear =>
    if numLinesToClear ≤ 0 then f
    else
      let numFullContiguousLines : Int :=
        1 + (numEqRowsFrom f (lowestLineToClear - 1).toNat : Int)
      let f1 := shiftRowsDown f lowestLineToClear numFullContiguousLines
      let n1 := numLinesToClear - numFullContiguousLines
      if n1 ≤ 0 then f1
      else
        match findEqRowBelow f1 lowestLineToClear.toNat with
        | some next => clearLinesLoop fuel f1 n1 (next : Int)
        | none => f1

/-- `clearLinesFromField` (`main.cpp` lines 388-438, identical in
`tetris.c` and `tetris.cpp`). -/
def clearLinesFromField (f : Field) (numLinesToClear lowestLineToClear : Int) : Field :=
  clearLinesLoop numLinesToClear.toNat f numLinesToClear lowestLineToClear

/-- Number of rows among `0..b` whose column-1 cell holds the
pending-clear marker (the cell the clear scans test). -/
def countEqLinesUpTo (f : Field) : Nat → Nat
  | 0 => if f 0 1 = '=' then 1 else 0
  | n + 1 => countEqLinesUpTo f n + (if f ((n : Int) + 1) 1 = '=' then 1 else 0)

/-- The number of pending-clear rows in `(z, lowestLineToClear]`: the
total downward shift the compaction applies to row `z`. -/
def countEqBetween (f : Field) (z lowestLineToClear : Int) : Int :=
  (countEqLinesUpTo f lowestLineToClear.toNat : Int) - (countEqLinesUpTo f z.toNat : Int)

/-- Evaluating a single-cell write. -/
theorem setCell_apply (f : Field) (yy xx : Int) (c : Char) (y' x' : Int) :
    setCell f yy xx c y' x' = if y' = yy ∧ x' = xx then c else f y' x' := rfl

/-- One row of the shift loop: writing interior columns 1..n of row `y`,
blanking when `y ≤ R` and otherwise copying (in place) from row `y - R`.
Since `1 ≤ R`, the reads at row `y - R` are unaffected by the writes at
row `y`, so the pass computes a pure function of the incoming field. -/
theorem shiftInner_apply (R : Int) (hR : 1 ≤ R) (y : Int) :
    ∀ (n : Nat), n ≤ 10 → ∀ (g : Field) (y' x' : Int),
      ((List.range n).foldl
        (fun g2 (k : Nat) =>
          if y ≤ R then setCell g2 y ((k : Int) + 1) ' '
          else setCell g2 y ((k : Int) + 1) (g2 (y - R) ((k : Int) + 1))) g) y' x' =
      if y' = y ∧ 1 ≤ x' ∧ x' ≤ (n : Int) then
        (if y ≤ R then ' ' else g (y - R) x')
      else g y' x' := by
  intro n
  induction n with
  | zero =>
    intro _ g y' x'
    simp only [List.range_zero, List.foldl_nil]
    have hno : ¬(y' = y ∧ 1 ≤ x' ∧ x' ≤ ((0 : Nat) : Int)) := by
      rintro ⟨-, h1, h2⟩
      omega
    rw [if_neg hno]
  | succ m ih =>
    intro hm g y' x'
    rw [List.range_succ, List.foldl_append]
    simp only [List.foldl_cons, List.foldl_nil]
    by_cases hyR : y ≤ R
    · rw [if_pos hyR, setCell_apply]
      rw [if_pos hyR]
      by_cases hcase : y' = y ∧ x' = (m : Int) + 1
      · have hyes : y' = y ∧ 1 ≤ x' ∧ x' ≤ ((m + 1 : Nat) : Int) :=
          ⟨hcase.1, by omega, by omega⟩
        rw [if_pos hcase, if_pos hyes]
      · rw [if_neg hcase, ih (by omega), if_pos hyR]
        refine if_congr ⟨?_, ?_⟩ rfl rfl
        · rintro ⟨k1, k2, k3⟩
          exact ⟨k1, k2, by push_cast; omega⟩
        · rintro ⟨k1, k2, k3⟩
          have hne : ¬(x' = (m : Int) + 1) := fun hx => hcase ⟨k1, hx⟩
          exact ⟨k1, k2, by push_cast at k3; omega⟩
    · rw [if_neg hyR, setCell_apply]
      have hprev : ((List.range m).foldl
          (fun g2 (k : Nat) =>
            if y ≤ R then setCell g2 y ((k : Int) + 1) ' '
            else setCell g2 y ((k : Int) + 1) (g2 (y - R) ((k : Int) + 1))) g)
            (y - R) ((m : Int) + 1) = g (y - R) ((m : Int) + 1) := by
        rw [ih (by omega)]
        have hno : ¬(y - R = y ∧ 1 ≤ (m : Int) + 1 ∧ (m : Int) + 1 ≤ (m : Int)) := by
          rintro ⟨-, -, h2⟩
          omega
        rw [if_neg hno]
      rw [hprev]
      by_cases hcase : y' = y ∧ x' = (m : Int) + 1
      · have hyes : y' = y ∧ 1 ≤ x' ∧ x' ≤ ((m + 1 : Nat) : Int) :=
          ⟨hcase.1, by omega, by omega⟩
        rw [if_pos hcase, if_pos hyes, if_neg hyR, hcase.2]
      · rw [if_neg hcase, ih (by omega), if_neg hyR]
        refine if_congr ⟨?_, ?_⟩ rfl rfl
        · rintro ⟨k1, k2, k3⟩
          exact ⟨k1, k2, by push_cast; omega⟩
        · rintro ⟨k1, k2, k3⟩
          have hne : ¬(x' = (m : Int) + 1) := fun hx => hcase ⟨k1, hx⟩
          exact ⟨k1, k2, by push_cast at k3; omega⟩

/-- The whole shift loop, processing rows `a-1, a-2, ..., 0` over a field
`g` that still agrees with the original `f` on those rows. -/
theorem shiftOuter_apply (f : Field) (R : Int) (hR : 1 ≤ R) :
    ∀ (a : Nat) (g : Field),
      (∀ y x : Int, y < (a : Int) → g y x = f y x) →
      ∀ y' x' : Int,
        ((downFrom a).foldl
          (fun g0 (yn : Nat) =>
            (List.range 10).foldl
              (fun g2 (k : Nat) =>
                if (yn : Int) ≤ R then setCell g2 (yn : Int) ((k : Int) + 1) ' '
                else setCell g2 (yn : Int) ((k : Int) + 1) (g2 ((yn : Int) - R) ((k : Int) + 1)))
              g0) g) y' x' =
        if 0 ≤ y' ∧ y' < (a : Int) ∧ 1 ≤ x' ∧ x' ≤ 10 then
          (if y' ≤ R then ' ' else f (y' - R) x')
        else g y' x' := by
  intro a
  induction a with
  | zero =>
    intro g hg y' x'
    simp only [downFrom, List.foldl_nil]
    have hno : ¬(0 ≤ y' ∧ y' < ((0 : Nat) : Int) ∧ 1 ≤ x' ∧ x' ≤ 10) := by
      rintro ⟨h1, h2, -⟩
      omega
    rw [if_neg hno]
  | succ a ih =>
    intro g hg y' x'
    show ((downFrom a).foldl _
        ((List.range 10).foldl
          (fun g2 (k : Nat) =>
            if (a : Int) ≤ R then setCell g2 (a : Int) ((k : Int) + 1) ' '
            else setCell g2 (a : Int) ((k : Int) + 1) (g2 ((a : Int) - R) ((k : Int) + 1)))
          g)) y' x' = _
    have hinner := shiftInner_apply R hR (a : Int) 10 le_rfl g
    have hg1 : ∀ y x : Int, y < (a : Int) →
        ((List.range 10).foldl
          (fun g2 (k : Nat) =>
            if (a : Int) ≤ R then setCell g2 (a : Int) ((k : Int) + 1) ' '
            else setCell g2 (a : Int) ((k : Int) + 1) (g2 ((a : Int) - R) ((k : Int) + 1)))
          g) y x = f y x := by
      intro y x hy
      rw [hinner y x]
      have hno : ¬(y = (a : Int) ∧ 1 ≤ x ∧ x ≤ ((10 : Nat) : Int)) := by
        rintro ⟨h1, -⟩
        omega
      rw [if_neg hno]
      exact hg y x (by omega)
    rw [ih _ hg1 y' x']
    by_cases hcase : 0 ≤ y' ∧ y' < (a : Int) ∧ 1 ≤ x' ∧ x' ≤ 10
    · have hyes : 0 ≤ y' ∧ y' < ((a + 1 : Nat) : Int) ∧ 1 ≤ x' ∧ x' ≤ 10 :=
        ⟨hcase.1, by push_cast; omega, hcase.2.2⟩
      rw [if_pos hcase, if_pos hyes]
    · rw [if_neg hcase, hinner y' x']
      by_cases hrow : y' = (a : Int) ∧ 1 ≤ x' ∧ x' ≤ ((10 : Nat) : Int)
      · have hyes : 0 ≤ y' ∧ y' < ((a + 1 : Nat) : Int) ∧ 1 ≤ x' ∧ x' ≤ 10 :=
          ⟨by omega, by push_cast; omega, hrow.2⟩
        rw [if_pos hrow, if_pos hyes]
        by_cases hyR : y' ≤ R
        · rw [if_pos (by omega : (a : Int) ≤ R), if_pos hyR]
        · rw [if_neg (by omega : ¬((a : Int) ≤ R)), if_neg hyR, hrow.1]
          exact hg ((a : Int) - R) x' (by omega)
      · have hno : ¬(0 ≤ y' ∧ y' < ((a + 1 : Nat) : Int) ∧ 1 ≤ x' ∧ x' ≤ 10) := by
          push_cast at hcase ⊢
          rintro ⟨k1, k2, k3⟩
          rcases lt_or_eq_of_le (by omega : y' ≤ (a : Int)) with hlt | heq
          · exact hcase ⟨k1, by omega, k3⟩
          · exact hrow ⟨heq, k3⟩
        rw [if_neg hrow, if_neg hno]

/-- The compaction pass as a pure function: inside the written region
(rows `0..lowestLineToClear`, interior columns), rows at or above the
contiguous-run count become blank and every other row receives the old
interior content of the row `numFullContiguousLines` above it; every
other cell is untouched. -/
theorem shiftRowsDown_apply (f : Field) (L R : Int) (hR : 1 ≤ R) (y x : Int) :
    shiftRowsDown f L R y x =
      if 0 ≤ y ∧ y ≤ L ∧ 1 ≤ x ∧ x ≤ 10 then
        (if y ≤ R then ' ' else f (y - R) x)
      else f y x := by
  unfold shiftRowsDown
  rw [shiftOuter_apply f R hR ((L + 1).toNat) f (fun _ _ _ => rfl) y x]
  refine if_congr ⟨?_, ?_⟩ rfl rfl
  · rintro ⟨h1, h2, h3⟩
    exact ⟨h1, by omega, h3⟩
  · rintro ⟨h1, h2, h3⟩
    exact ⟨h1, by omega, h3⟩

/-- What the contiguous-run scan computes: every row it counted is
marked, the count is bounded, and (unless the scan hit the top) the row
just above the counted run is unmarked. -/
theorem numEqRowsFrom_spec (f : Field) :
    ∀ r : Nat,
      (∀ j : Nat, j < numEqRowsFrom f r → f ((r : Int) - (j : Int)) 1 = '=') ∧
      numEqRowsFrom f r ≤ r + 1 ∧
      (numEqRowsFrom f r ≤ r →
        f ((r : Int) - (numEqRowsFrom f r : Int)) 1 ≠ '=') := by
  intro r
  induction r with
  | zero =>
    unfold numEqRowsFrom
    by_cases h : f 0 1 = '='
    · rw [if_pos h]
      refine ⟨?_, le_rfl, ?_⟩
      · intro j hj
        have hj0 : j = 0 := by omega
        subst hj0
        simpa using h
      · intro hle
        omega
    · rw [if_neg h]
      refine ⟨?_, by omega, ?_⟩
      · intro j hj
        omega
      · intro _
        simpa using h
  | succ n ih =>
    obtain ⟨ih1, ih2, ih3⟩ := ih
    unfold numEqRowsFrom
    by_cases h : f ((n : Int) + 1) 1 = '='
    · rw [if_pos h]
      refine ⟨?_, by omega, ?_⟩
      · intro j hj
        match j with
        | 0 =>
          have harg : ((n + 1 : Nat) : Int) - ((0 : Nat) : Int) = (n : Int) + 1 := by
            push_cast; ring
          rw [harg]
          exact h
        | j' + 1 =>
          have harg : ((n + 1 : Nat) : Int) - ((j' + 1 : Nat) : Int) = (n : Int) - (j' : Int) := by
            push_cast; ring
          rw [harg]
          exact ih1 j' (by omega)
      · intro hle
        have harg : ((n + 1 : Nat) : Int) - ((numEqRowsFrom f n + 1 : Nat) : Int) =
            (n : Int) - (numEqRowsFrom f n : Int) := by
          push_cast; ring
        rw [harg]
        exact ih3 (by omega)
    · rw [if_neg h]
      refine ⟨?_, by omega, ?_⟩
      · intro j hj
        omega
      · intro _
        have harg : ((n + 1 : Nat) : Int) - ((0 : Nat) : Int) = (n : Int) + 1 := by
          push_cast; ring
        rw [harg]
        exact h

theorem countEqLinesUpTo_succ (f : Field) (n : Nat) :
    countEqLinesUpTo f (n + 1) =
      countEqLinesUpTo f n + (if f ((n : Int) + 1) 1 = '=' then 1 else 0) := rfl

theorem countEqLinesUpTo_zero_of (f : Field) :
    ∀ b : Nat, (∀ j : Nat, j ≤ b → f (j : Int) 1 ≠ '=') →
      countEqLinesUpTo f b = 0 := by
  intro b
  induction b with
  | zero =>
    intro h
    unfold countEqLinesUpTo
    rw [if_neg (by simpa using h 0 le_rfl)]
  | succ n ih =>
    intro h
    rw [countEqLinesUpTo_succ, ih (fun j hj => h j (by omega))]
    have hn1 : f ((n : Int) + 1) 1 ≠ '=' := by
      have := h (n + 1) le_rfl
      rwa [show ((n + 1 : Nat) : Int) = (n : Int) + 1 by push_cast; ring] at this
    rw [if_neg hn1]

theorem countEqLinesUpTo_all_unmarked (f : Field) :
    ∀ b : Nat, countEqLinesUpTo f b = 0 →
      ∀ j : Nat, j ≤ b → f (j : Int) 1 ≠ '=' := by
  intro b
  induction b with
  | zero =>
    intro h j hj
    have hj0 : j = 0 := by omega
    subst hj0
    unfold countEqLinesUpTo at h
    by_cases hm : f 0 1 = '='
    · rw [if_pos hm] at h
      omega
    · simpa using hm
  | succ n ih =>
    intro h j hj
    rw [countEqLinesUpTo_succ] at h
    have h1 : countEqLinesUpTo f n = 0 := by omega
    have h2 : f ((n : Int) + 1) 1 ≠ '=' := by
      intro hm
      rw [if_pos hm] at h
      omega
    rcases Nat.lt_or_ge j (n + 1) with hlt | hge
    · exact ih h1 j (by omega)
    · have hj1 : j = n + 1 := by omega
      subst hj1
      rwa [show ((n + 1 : Nat) : Int) = (n : Int) + 1 by push_cast; ring]

theorem countEqLinesUpTo_pos (f : Field) (b j : Nat) (hj : j ≤ b)
    (hm : f (j : Int) 1 = '=') : 0 < countEqLinesUpTo f b := by
  by_contra h
  push_neg at h
  exact countEqLinesUpTo_all_unmarked f b (by omega) j hj hm

/-- Counting across a fully marked stretch `(b, b+k]`. -/
theorem countEqLinesUpTo_run (f : Field) :
    ∀ (k b : Nat), (∀ j : Nat, b < j → j ≤ b + k → f (j : Int) 1 = '=') →
      countEqLinesUpTo f (b + k) = countEqLinesUpTo f b + k := by
  intro k
  induction k with
  | zero => intro b _; rfl
  | succ m ih =>
    intro b h
    have hstep : b + (m + 1) = (b + m) + 1 := by omega
    rw [hstep, countEqLinesUpTo_succ, ih b (fun j hj1 hj2 => h j hj1 (by omega))]
    have hm1 : f (((b + m : Nat) : Int) + 1) 1 = '=' := by
      have := h (b + m + 1) (by omega) (by omega)
      rwa [show ((b + m + 1 : Nat) : Int) = ((b + m : Nat) : Int) + 1 by push_cast; ring] at this
    rw [if_pos hm1]
    omega

/-- Counting across a fully unmarked stretch `(b, b+k]`. -/
theorem countEqLinesUpTo_congr_range (f : Field) :
    ∀ (k b : Nat), (∀ j : Nat, b < j → j ≤ b + k → f (j : Int) 1 ≠ '=') →
      countEqLinesUpTo f (b + k) = countEqLinesUpTo f b := by
  intro k
  induction k with
  | zero => intro b _; rfl
  | succ m ih =>
    intro b h
    have hstep : b + (m + 1) = (b + m) + 1 := by omega
    rw [hstep, countEqLinesUpTo_succ, ih b (fun j hj1 hj2 => h j hj1 (by omega))]
    have hm1 : f (((b + m : Nat) : Int) + 1) 1 ≠ '=' := by
      have := h (b + m + 1) (by omega) (by omega)
      rwa [show ((b + m + 1 : Nat) : Int) = ((b + m : Nat) : Int) + 1 by push_cast; ring] at this
    rw [if_neg hm1]
    omega

/-- Marked-row counts of the shifted field: rows at or above `R` hold no
marker, and above `R` the markers are those of the original field `R`
rows higher. -/
theorem countEqLinesUpTo_shift (g f : Field) (R : Int) (B : Nat) (hR : 1 ≤ R)
    (hblank : ∀ j : Nat, (j : Int) ≤ R → g (j : Int) 1 ≠ '=')
    (hcopy : ∀ j : Nat, R < (j : Int) → j ≤ B → g (j : Int) 1 = f ((j : Int) - R) 1)
    (hf0 : f 0 1 ≠ '=') :
    ∀ b : Nat, b ≤ B →
      countEqLinesUpTo g b =
        if (b : Int) ≤ R then 0 else countEqLinesUpTo f ((b : Int) - R).toNat := by
  intro b
  induction b with
  | zero =>
    intro _
    rw [if_pos (by omega)]
    unfold countEqLinesUpTo
    have h0 := hblank 0 (by omega)
    push_cast at h0
    rw [if_neg h0]
  | succ n ih =>
    intro hb
    rw [countEqLinesUpTo_succ, ih (by omega)]
    by_cases hnR : ((n + 1 : Nat) : Int) ≤ R
    · rw [if_pos hnR, if_pos (by push_cast at hnR ⊢; omega)]
      have hbl : g ((n : Int) + 1) 1 ≠ '=' := by
        have := hblank (n + 1) hnR
        rwa [show ((n + 1 : Nat) : Int) = (n : Int) + 1 by push_cast; ring] at this
      rw [if_neg hbl]
    · rw [if_neg hnR]
      have hcp : g ((n : Int) + 1) 1 = f ((n : Int) + 1 - R) 1 := by
        have := hcopy (n + 1) (by push_cast at hnR ⊢; omega) hb
        rwa [show ((n + 1 : Nat) : Int) = (n : Int) + 1 by push_cast; ring] at this
      rw [hcp]
      by_cases hnR2 : (n : Int) ≤ R
      · -- boundary: n = R, so the remaining prefix count on both sides is 0
        rw [if_pos hnR2]
        have hnR3 : (n : Int) = R := by push_cast at hnR; omega
        have hz : (((n + 1 : Nat) : Int) - R).toNat = 1 := by push_cast; omega
        rw [hz]
        show 0 + _ = countEqLinesUpTo f 1
        have h1 : countEqLinesUpTo f 1 = countEqLinesUpTo f 0 + _ := countEqLinesUpTo_succ f 0
        rw [countEqLinesUpTo_succ f 0]
        unfold countEqLinesUpTo
        rw [if_neg hf0]
        have harg : ((0 : Nat) : Int) + 1 = (n : Int) + 1 - R := by omega
        rw [harg]
      · rw [if_neg hnR2]
        have hd : (((n + 1 : Nat) : Int) - R).toNat = ((n : Int) - R).toNat + 1 := by
          push_cast; omega
        rw [hd, countEqLinesUpTo_succ]
        have harg : ((((n : Int) - R).toNat : Nat) : Int) + 1 = (n : Int) + 1 - R := by
          push_cast at hnR2 ⊢; omega
        rw [harg]

/-- What the next-line search computes: the row found is the highest
marked row strictly below the starting row; `none` means no marked row
exists there. -/
theorem findEqRowBelow_spec (g : Field) :
    ∀ s : Nat,
      (∀ res : Nat, findEqRowBelow g s = some res →
        res < s ∧ g (res : Int) 1 = '=' ∧
          ∀ j : Nat, res < j → j < s → g (j : Int) 1 ≠ '=') ∧
      (findEqRowBelow g s = none → ∀ j : Nat, j < s → g (j : Int) 1 ≠ '=') := by
  intro s
  induction s with
  | zero =>
    constructor
    · intro res hres
      simp [findEqRowBelow] at hres
    · intro _ j hj
      omega
  | succ k ih =>
    constructor
    · intro res hres
      unfold findEqRowBelow at hres
      by_cases h : g (k : Int) 1 = '='
      · rw [if_pos h] at hres
        injection hres with h'
        subst h'
        exact ⟨by omega, h, fun j hj1 hj2 => by omega⟩
      · rw [if_neg h] at hres
        obtain ⟨h1, h2, h3⟩ := ih.1 res hres
        refine ⟨by omega, h2, ?_⟩
        intro j hj1 hj2
        rcases Nat.lt_or_ge j k with hlt | hge
        · exact h3 j hj1 hlt
        · have hjk : j = k := by omega
          subst hjk
          exact h
    · intro hnone j hj
      unfold findEqRowBelow at hnone
      by_cases h : g (k : Int) 1 = '='
      · rw [if_pos h] at hnone
        exact absurd hnone (by simp)
      · rw [if_neg h] at hnone
        rcases Nat.lt_or_ge j k with hlt | hge
        · exact ih.2 hnone j hlt
        · have hjk : j = k := by omega
          subst hjk
          exact h

/-- With rows 0 and 1 unmarked, at most `b - 1` of the rows `0..b` can be
marked. -/
theorem countEqLinesUpTo_le_of_top_unmarked (f : Field)
    (h0 : f 0 1 ≠ '=') (h1 : f 1 1 ≠ '=') :
    ∀ b : Nat, 1 ≤ b → countEqLinesUpTo f b + 1 ≤ b := by
  intro b
  induction b with
  | zero => intro h; omega
  | succ m ih =>
    intro _
    rcases Nat.eq_zero_or_pos m with hm | hm
    · subst hm
      rw [countEqLinesUpTo_succ]
      unfold countEqLinesUpTo
      rw [if_neg h0]
      rw [if_neg (by rwa [show ((0 : Nat) : Int) + 1 = 1 by norm_num])]
    · have := ih hm
      rw [countEqLinesUpTo_succ]
      split <;> omega

/-- One unfolding of the clear-lines loop. -/
theorem clearLinesLoop_succ (fuel : Nat) (f : Field) (n L : Int) :
    clearLinesLoop (fuel + 1) f n L =
      if n ≤ 0 then f
      else
        if n - (1 + (numEqRowsFrom f (L - 1).toNat : Int)) ≤ 0 then
          shiftRowsDown f L (1 + (numEqRowsFrom f (L - 1).toNat : Int))
        else
          match findEqRowBelow
              (shiftRowsDown f L (1 + (numEqRowsFrom f (L - 1).toNat : Int))) L.toNat with
          | some next =>
            clearLinesLoop fuel
              (shiftRowsDown f L (1 + (numEqRowsFrom f (L - 1).toNat : Int)))
              (n - (1 + (numEqRowsFrom f (L - 1).toNat : Int))) (next : Int)
          | none => shiftRowsDown f L (1 + (numEqRowsFrom f (L - 1).toNat : Int)) := rfl

/-- Full correctness of the clear-lines loop, for a field in the state
the game hands it over: rows 0 and 1 blank inside the borders,
`lowestLineToClear ∈ [2,16]` marked and lowest, and `numLinesToClear`
the number of marked rows.  The loop (1) touches no cell outside rows
`0..lowestLineToClear` of the interior, (2) blanks the top
`numLinesToClear` rows, (3) drops every unmarked row by exactly the
number of marked rows below it, and (4) leaves no pending-clear marker
anywhere. -/
theorem clearLinesLoop_spec :
    ∀ (fuel : Nat) (f : Field) (n L : Int),
      (∀ x : Int, 1 ≤ x → x ≤ 10 → f 0 x = ' ' ∧ f 1 x = ' ') →
      2 ≤ L → L ≤ 16 →
      f L 1 = '=' →
      (∀ y : Int, L < y → y ≤ 17 → f y 1 ≠ '=') →
      n = (countEqLinesUpTo f L.toNat : Int) →
      n.toNat ≤ fuel →
      (∀ y x : Int, (x < 1 ∨ 10 < x ∨ y < 0 ∨ L < y) →
        clearLinesLoop fuel f n L y x = f y x) ∧
      (∀ y x : Int, 0 ≤ y → y < n → 1 ≤ x → x ≤ 10 →
        clearLinesLoop fuel f n L y x = ' ') ∧
      (∀ z x : Int, 0 ≤ z → z ≤ L → f z 1 ≠ '=' → 1 ≤ x → x ≤ 10 →
        clearLinesLoop fuel f n L (z + countEqBetween f z L) x = f z x) ∧
      (∀ y : Int, 0 ≤ y → y ≤ 17 → clearLinesLoop fuel f n L y 1 ≠ '=') := by
  intro fuel
  induction fuel with
  | zero =>
    intro f n L htop hL2 hL16 hmark hbelow hn hfuel
    exfalso
    have hL0 : ((L.toNat : Nat) : Int) = L := by omega
    have hpos : 0 < countEqLinesUpTo f L.toNat :=
      countEqLinesUpTo_pos f L.toNat L.toNat le_rfl (by rw [hL0]; exact hmark)
    omega
  | succ fuel ih =>
    intro f n L htop hL2 hL16 hmark hbelow hn hfuel
    have hf01 : f 0 1 = ' ' ∧ f 1 1 = ' ' :=
      ⟨(htop 1 (by omega) (by omega)).1, (htop 1 (by omega) (by omega)).2⟩
    have hf0ne : f 0 1 ≠ '=' := by rw [hf01.1]; decide
    have hf1ne : f 1 1 ≠ '=' := by rw [hf01.2]; decide
    have hL0 : ((L.toNat : Nat) : Int) = L := by omega
    have hpos : 0 < countEqLinesUpTo f L.toNat :=
      countEqLinesUpTo_pos f L.toNat L.toNat le_rfl (by rw [hL0]; exact hmark)
    have hnpos : 1 ≤ n := by omega
    have hnle : n ≤ L - 1 := by
      have := countEqLinesUpTo_le_of_top_unmarked f hf0ne hf1ne L.toNat (by omega)
      omega
    obtain ⟨hrun0, hbound0, hstop0⟩ := numEqRowsFrom_spec f (L - 1).toNat
    have hL1 : (((L - 1).toNat : Nat) : Int) = L - 1 := by omega
    set c : Nat := numEqRowsFrom f (L - 1).toNat with hc
    set R : Int := 1 + (c : Int) with hRdef
    have hR1 : 1 ≤ R := by omega
    have hcle : (c : Int) ≤ L - 2 := by
      by_contra hcon
      push_neg at hcon
      have hj : (L - 2).toNat < c := by omega
      have hx := hrun0 (L - 2).toNat hj
      rw [hL1, show (L - 1) - (((L - 2).toNat : Nat) : Int) = 1 by omega, hf01.2] at hx
      exact absurd hx (by decide)
    have hRle : R ≤ L - 1 := by omega
    have hrun : ∀ y : Int, L - R < y → y ≤ L → f y 1 = '=' := by
      intro y hy1 hy2
      rcases eq_or_lt_of_le hy2 with heq | hlt
      · rw [heq]; exact hmark
      · have hj : (L - 1 - y).toNat < c := by omega
        have hx := hrun0 (L - 1 - y).toNat hj
        rw [hL1] at hx
        rwa [show (L - 1) - (((L - 1 - y).toNat : Nat) : Int) = y by omega] at hx
    have hstop : f (L - R) 1 ≠ '=' := by
      have hcle2 : c ≤ (L - 1).toNat := by omega
      have hx := hstop0 hcle2
      rw [hL1] at hx
      rwa [show (L - 1) - (c : Int) = L - R by omega] at hx
    have hsplitNat : countEqLinesUpTo f ((L - R).toNat + R.toNat) =
        countEqLinesUpTo f (L - R).toNat + R.toNat := by
      apply countEqLinesUpTo_run
      intro j hj1 hj2
      exact hrun j (by omega) (by omega)
    have hLRtoNat : (L - R).toNat + R.toNat = L.toNat := by omega
    rw [hLRtoNat] at hsplitNat
    have hCN : (countEqLinesUpTo f (L - R).toNat : Int) = n - R := by omega
    set f1 : Field := shiftRowsDown f L R with hf1def
    have hsh : ∀ y x : Int, f1 y x =
        if 0 ≤ y ∧ y ≤ L ∧ 1 ≤ x ∧ x ≤ 10 then
          (if y ≤ R then ' ' else f (y - R) x)
        else f y x := by
      intro y x
      rw [hf1def]
      exact shiftRowsDown_apply f L R hR1 y x
    by_cases hn1 : n - R ≤ 0
    · -- single pass: the run is everything
      have hstep : clearLinesLoop (fuel + 1) f n L = f1 := by
        rw [clearLinesLoop_succ, if_neg (by omega : ¬n ≤ 0), ← hc, ← hRdef, ← hf1def,
          if_pos hn1]
      rw [hstep]
      have hCN0 : (countEqLinesUpTo f (L - R).toNat : Int) = 0 := by omega
      have hunmN := countEqLinesUpTo_all_unmarked f (L - R).toNat (by omega)
      have hunm : ∀ y : Int, 0 ≤ y → y ≤ L - R → f y 1 ≠ '=' := by
        intro y h1 h2
        have hx := hunmN y.toNat (by omega)
        rwa [show ((y.toNat : Nat) : Int) = y by omega] at hx
      refine ⟨?_, ?_, ?_, ?_⟩
      · intro y x hy
        rw [hsh y x]
        have hno : ¬(0 ≤ y ∧ y ≤ L ∧ 1 ≤ x ∧ x ≤ 10) := by
          rintro ⟨k1, k2, k3, k4⟩
          rcases hy with h | h | h | h <;> omega
        rw [if_neg hno]
      · intro y x hy0 hyn hx1 hx2
        rw [hsh y x, if_pos ⟨hy0, by omega, hx1, hx2⟩, if_pos (by omega)]
      · intro z x hz0 hzL hzun hx1 hx2
        have hzLR : z ≤ L - R := by
          by_contra hcon
          push_neg at hcon
          exact hzun (hrun z hcon hzL)
        have hcz : (countEqLinesUpTo f z.toNat : Int) = 0 := by
          have hz : countEqLinesUpTo f z.toNat = 0 := by
            apply countEqLinesUpTo_zero_of
            intro j hj
            exact hunmN j (by omega)
          omega
        have hbet : countEqBetween f z L = n := by
          unfold countEqBetween
          omega
        rw [hbet]
        rcases eq_or_lt_of_le hz0 with h0 | h0
        · rw [← h0, show (0 : Int) + n = n from by ring]
          rw [hsh n x, if_pos ⟨by omega, by omega, hx1, hx2⟩, if_pos (by omega)]
          exact ((htop x hx1 hx2).1).symm
        · rw [hsh (z + n) x, if_pos ⟨by omega, by omega, hx1, hx2⟩, if_neg (by omega)]
          rw [show z + n - R = z from by omega]
      · intro y hy0 hy17
        by_cases hyL : y ≤ L
        · rw [hsh y 1, if_pos ⟨hy0, hyL, by omega, by omega⟩]
          by_cases hyR : y ≤ R
          · rw [if_pos hyR]; decide
          · rw [if_neg hyR]
            exact hunm (y - R) (by omega) (by omega)
        · rw [hsh y 1]
          rw [if_neg (by rintro ⟨k1, k2, -⟩; omega)]
          exact hbelow y (by omega) (by omega)
    · -- more marked rows remain above the run
      push_neg at hn1
      have hblank1 : ∀ j : Nat, (j : Int) ≤ R → f1 (j : Int) 1 ≠ '=' := by
        intro j hj
        rw [hsh, if_pos ⟨by omega, by omega, by omega, by omega⟩, if_pos hj]
        decide
      have hcopy1 : ∀ j : Nat, R < (j : Int) → j ≤ L.toNat →
          f1 (j : Int) 1 = f ((j : Int) - R) 1 := by
        intro j hj1 hj2
        rw [hsh, if_pos ⟨by omega, by omega, by omega, by omega⟩, if_neg (by omega)]
      have hshiftcount := countEqLinesUpTo_shift f1 f R L.toNat hR1 hblank1 hcopy1 hf0ne
      have hex : ∃ j : Nat, j ≤ (L - R).toNat ∧ f (j : Int) 1 = '=' := by
        by_contra hcon
        push_neg at hcon
        have hz : countEqLinesUpTo f (L - R).toNat = 0 :=
          countEqLinesUpTo_zero_of f _ (fun j hj => hcon j hj)
        omega
      obtain ⟨zst, hzst1, hzst2⟩ := hex
      have hzst3 : 2 ≤ (zst : Int) := by
        by_contra hcon
        push_neg at hcon
        have hz01 : zst = 0 ∨ zst = 1 := by omega
        rcases hz01 with h0 | h0 <;> subst h0
        · rw [show ((0 : Nat) : Int) = 0 by norm_num, hf01.1] at hzst2
          exact absurd hzst2 (by decide)
        · rw [show ((1 : Nat) : Int) = 1 by norm_num, hf01.2] at hzst2
          exact absurd hzst2 (by decide)
      have hzstL : (zst : Int) ≤ L - R - 1 := by
        rcases eq_or_lt_of_le (show (zst : Int) ≤ L - R by omega) with heq | hlt
        · rw [heq] at hzst2
          exact absurd hzst2 hstop
        · omega
      have himg : f1 ((zst : Int) + R) 1 = '=' := by
        rw [hsh, if_pos ⟨by omega, by omega, by omega, by omega⟩, if_neg (by omega)]
        rw [show (zst : Int) + R - R = (zst : Int) from by ring]
        exact hzst2
      rcases hfind : findEqRowBelow f1 L.toNat with _ | next
      · exfalso
        have hnone := (findEqRowBelow_spec f1 L.toNat).2 hfind
          ((zst : Int) + R).toNat (by omega)
        rw [show ((((zst : Int) + R).toNat : Nat) : Int) = (zst : Int) + R by omega] at hnone
        exact hnone himg
      · obtain ⟨hnlt, hnmark, hnmax⟩ := (findEqRowBelow_spec f1 L.toNat).1 next hfind
        set L' : Int := (next : Int) with hL'def
        have hstep : clearLinesLoop (fuel + 1) f n L = clearLinesLoop fuel f1 (n - R) L' := by
          rw [clearLinesLoop_succ, if_neg (by omega : ¬n ≤ 0), ← hc, ← hRdef, ← hf1def,
            if_neg (by omega : ¬n - R ≤ 0), hfind]
        rw [hstep]
        have hL'lt : L' < L := by omega
        have hL'R : R < L' := by
          by_contra hcon
          push_neg at hcon
          have hbl : f1 L' 1 = ' ' := by
            rw [hsh, if_pos ⟨by omega, by omega, by omega, by omega⟩, if_pos hcon]
          rw [hbl] at hnmark
          exact absurd hnmark (by decide)
        have hmark1 : f (L' - R) 1 = '=' := by
          have hx := hnmark
          rw [hsh, if_pos ⟨by omega, by omega, by omega, by omega⟩, if_neg (by omega)] at hx
          exact hx
        have hL'R2 : 2 ≤ L' - R := by
          by_contra hcon
          push_neg at hcon
          have h01 : L' - R = 0 ∨ L' - R = 1 := by omega
          rcases h01 with h0 | h0 <;> rw [h0] at hmark1
          · rw [hf01.1] at hmark1
            exact absurd hmark1 (by decide)
          · rw [hf01.2] at hmark1
            exact absurd hmark1 (by decide)
        have htop1 : ∀ x : Int, 1 ≤ x → x ≤ 10 → f1 0 x = ' ' ∧ f1 1 x = ' ' := by
          intro x hx1 hx2
          constructor
          · rw [hsh, if_pos ⟨le_rfl, by omega, hx1, hx2⟩, if_pos (by omega)]
          · rw [hsh, if_pos ⟨by omega, by omega, hx1, hx2⟩, if_pos (by omega)]
        have hbelow1 : ∀ y : Int, L' < y → y ≤ 17 → f1 y 1 ≠ '=' := by
          intro y hy1 hy2
          rcases lt_trichotomy y L with hlt | heq | hgt
          · have hmx := hnmax y.toNat (by omega) (by omega)
            rwa [show ((y.toNat : Nat) : Int) = y by omega] at hmx
          · rw [heq, hsh, if_pos ⟨by omega, le_rfl, by omega, by omega⟩, if_neg (by omega)]
            exact hstop
          · rw [hsh]
            rw [if_neg (by rintro ⟨k1, k2, -⟩; omega)]
            exact hbelow y hgt hy2
        have hmidrow : ∀ w : Int, L' - R < w → w ≤ L - R → f w 1 ≠ '=' := by
          intro w hw1 hw2
          rcases eq_or_lt_of_le hw2 with heq | hlt
          · rw [heq]; exact hstop
          · intro hmk
            have himgw : f1 (w + R) 1 = '=' := by
              rw [hsh, if_pos ⟨by omega, by omega, by omega, by omega⟩, if_neg (by omega)]
              rw [show w + R - R = w from by ring]
              exact hmk
            have hmx := hnmax (w + R).toNat (by omega) (by omega)
            rw [show (((w + R).toNat : Nat) : Int) = w + R by omega] at hmx
            exact hmx himgw
        have hcntL' : (countEqLinesUpTo f1 L'.toNat : Int) =
            (countEqLinesUpTo f (L' - R).toNat : Int) := by
          have hx := hshiftcount L'.toNat (by omega)
          rw [if_neg (by omega)] at hx
          rw [hx]
          have harg : (((L'.toNat : Nat) : Int) - R).toNat = (L' - R).toNat := by omega
          rw [harg]
        have hcr0 := countEqLinesUpTo_congr_range f ((L - R) - (L' - R)).toNat (L' - R).toNat
          (fun j hj1 hj2 => hmidrow j (by omega) (by omega))
        have hsum0 : (L' - R).toNat + ((L - R) - (L' - R)).toNat = (L - R).toNat := by omega
        rw [hsum0] at hcr0
        have hn1eq : n - R = (countEqLinesUpTo f1 L'.toNat : Int) := by
          rw [hcntL']
          omega
        obtain ⟨IH1, IH2, IH3, IH4⟩ := ih f1 (n - R) L' htop1 (by omega) (by omega)
          hnmark hbelow1 hn1eq (by omega)
        have hbet1 : ∀ z : Int, 0 ≤ z → z ≤ R → countEqBetween f1 z L' = n - R := by
          intro z h1 h2
          unfold countEqBetween
          have hz := hshiftcount z.toNat (by omega)
          rw [if_pos (by omega)] at hz
          omega
        refine ⟨?_, ?_, ?_, ?_⟩
        · intro y x hy
          have h1 : clearLinesLoop fuel f1 (n - R) L' y x = f1 y x := by
            apply IH1
            rcases hy with h | h | h | h
            · exact Or.inl h
            · exact Or.inr (Or.inl h)
            · exact Or.inr (Or.inr (Or.inl h))
            · exact Or.inr (Or.inr (Or.inr (by omega)))
          rw [h1, hsh y x]
          have hno : ¬(0 ≤ y ∧ y ≤ L ∧ 1 ≤ x ∧ x ≤ 10) := by
            rintro ⟨k1, k2, k3, k4⟩
            rcases hy with h | h | h | h <;> omega
          rw [if_neg hno]
        · intro y x hy0 hyn hx1 hx2
          by_cases hy1 : y < n - R
          · exact IH2 y x hy0 hy1 hx1 hx2
          · push_neg at hy1
            have hf1un : f1 (y - (n - R)) 1 ≠ '=' := by
              have hx := hblank1 (y - (n - R)).toNat (by omega)
              rwa [show (((y - (n - R)).toNat : Nat) : Int) = y - (n - R) by omega] at hx
            have hI := IH3 (y - (n - R)) x (by omega) (by omega) hf1un hx1 hx2
            rw [hbet1 (y - (n - R)) (by omega) (by omega)] at hI
            rw [show y - (n - R) + (n - R) = y from by ring] at hI
            rw [hI]
            rw [hsh, if_pos ⟨by omega, by omega, hx1, hx2⟩, if_pos (by omega)]
        · intro z x hz0 hzL hzun hx1 hx2
          have hzLR : z ≤ L - R := by
            by_contra hcon
            push_neg at hcon
            exact hzun (hrun z hcon hzL)
          have hval : f1 (z + R) x = f z x := by
            rcases eq_or_lt_of_le hz0 with h0 | h0
            · rw [hsh, if_pos ⟨by omega, by omega, hx1, hx2⟩, if_pos (by omega)]
              rw [← h0]
              exact ((htop x hx1 hx2).1).symm
            · rw [hsh, if_pos ⟨by omega, by omega, hx1, hx2⟩, if_neg (by omega)]
              rw [show z + R - R = z from by ring]
          have hf1z : f1 (z + R) 1 ≠ '=' := by
            rcases eq_or_lt_of_le hz0 with h0 | h0
            · rw [hsh, if_pos ⟨by omega, by omega, by omega, by omega⟩, if_pos (by omega)]
              decide
            · rw [hsh, if_pos ⟨by omega, by omega, by omega, by omega⟩, if_neg (by omega)]
              rw [show z + R - R = z from by ring]
              exact hzun
          have hcnt : (countEqLinesUpTo f1 (z + R).toNat : Int) =
              (countEqLinesUpTo f z.toNat : Int) := by
            have hz' := hshiftcount (z + R).toNat (by omega)
            rcases eq_or_lt_of_le hz0 with h0 | h0
            · rw [if_pos (by omega)] at hz'
              have hzz : countEqLinesUpTo f z.toNat = 0 := by
                apply countEqLinesUpTo_zero_of
                intro j hj
                have hj0 : j = 0 := by omega
                subst hj0
                rw [show ((0 : Nat) : Int) = 0 by norm_num]
                exact hf0ne
              omega
            · rw [if_neg (by omega)] at hz'
              rw [hz']
              have harg : ((((z + R).toNat : Nat) : Int) - R).toNat = z.toNat := by omega
              rw [harg]
          by_cases hzL' : z + R ≤ L'
          · have hI := IH3 (z + R) x (by omega) hzL' hf1z hx1 hx2
            have hbet' : countEqBetween f1 (z + R) L' =
                (n - R) - (countEqLinesUpTo f z.toNat : Int) := by
              unfold countEqBetween
              omega
            rw [hbet'] at hI
            have hbetz : countEqBetween f z L = n - (countEqLinesUpTo f z.toNat : Int) := by
              unfold countEqBetween
              omega
            rw [hbetz]
            rw [show z + (n - (countEqLinesUpTo f z.toNat : Int)) =
              z + R + ((n - R) - (countEqLinesUpTo f z.toNat : Int)) from by ring]
            rw [hI, hval]
          · push_neg at hzL'
            have hcr1 := countEqLinesUpTo_congr_range f ((L - R) - z).toNat z.toNat
              (fun j hj1 hj2 => hmidrow j (by omega) (by omega))
            have hsum1 : z.toNat + ((L - R) - z).toNat = (L - R).toNat := by omega
            rw [hsum1] at hcr1
            have hzcnt : (countEqLinesUpTo f z.toNat : Int) = n - R := by omega
            have hbetz : countEqBetween f z L = R := by
              unfold countEqBetween
              omega
            rw [hbetz]
            have hI := IH1 (z + R) x (Or.inr (Or.inr (Or.inr hzL')))
            rw [hI, hval]
        · intro y hy0 hy17
          exact IH4 y hy0 hy17

/-- A concrete pending-clear field for exercising `clearLinesFromField`:
borders intact, rows 9, 14 and 15 marked (so one isolated full row and
one contiguous pair, non-adjacent), a 'T' at (13,3), a 'Z' at (16,5)
below the lowest cleared row, and an 'S' at (8,7). -/
def clearDemoField : Field := fun y x =>
  if x = 0 ∨ x = 11 ∨ y = 17 then '#'
  else if (y = 9 ∨ y = 14 ∨ y = 15) ∧ 1 ≤ x ∧ x ≤ 10 then '='
  else if y = 13 ∧ x = 3 then 'T'
  else if y = 16 ∧ x = 5 then 'Z'
  else if y = 8 ∧ x = 7 then 'S'
  else ' '

/-- C1: for a field in the state the game hands to `clearLinesFromField`
(rows 0 and 1 empty inside the border, the given row the lowest
pending-clear row, the given count the number of pending-clear rows),
the compaction removes every pending-clear row by run-length batching:
no cell outside interior rows `0..lowestLineToClear` changes (in
particular everything below the lowest cleared row is unaffected), the
top `numLinesToClear` interior rows end up empty, every non-marked row
`z` ends up exactly `countEqBetween f z lowestLineToClear` rows lower —
its own cumulative run length, with no double-shifting — and no
pending-clear marker survives anywhere on the board. -/
theorem c1_clearLinesFromField_spec
    (f : Field) (numLinesToClear lowestLineToClear : Int)
    (htop : ∀ k : Nat, k < 10 → f 0 ((k : Int) + 1) = ' ' ∧ f 1 ((k : Int) + 1) = ' ')
    (hL2 : 2 ≤ lowestLineToClear) (hL16 : lowestLineToClear ≤ 16)
    (hmark : f lowestLineToClear 1 = '=')
    (hbelow : ∀ k : Nat, k < 18 → lowestLineToClear < (k : Int) → f (k : Int) 1 ≠ '=')
    (hn : numLinesToClear = (countEqLinesUpTo f lowestLineToClear.toNat : Int)) :
    (∀ y x : Int, (x < 1 ∨ FIELD_WIDTH - 2 < x ∨ y < 0 ∨ lowestLineToClear < y) →
      clearLinesFromField f numLinesToClear lowestLineToClear y x = f y x) ∧
    (∀ y x : Int, 0 ≤ y → y < numLinesToClear → 1 ≤ x → x ≤ FIELD_WIDTH - 2 →
      clearLinesFromField f numLinesToClear lowestLineToClear y x = ' ') ∧
    (∀ z x : Int, 0 ≤ z → z ≤ lowestLineToClear → f z 1 ≠ '=' →
      1 ≤ x → x ≤ FIELD_WIDTH - 2 →
      clearLinesFromField f numLinesToClear lowestLineToClear
        (z + countEqBetween f z lowestLineToClear) x = f z x) ∧
    (∀ y : Int, 0 ≤ y → y ≤ FIELD_HEIGHT - 1 →
      clearLinesFromField f numLinesToClear lowestLineToClear y 1 ≠ '=') := by
  have htop' : ∀ x : Int, 1 ≤ x → x ≤ 10 → f 0 x = ' ' ∧ f 1 x = ' ' := by
    intro x h1 h2
    have hx := htop (x - 1).toNat (by omega)
    rwa [show (((x - 1).toNat : Nat) : Int) + 1 = x by omega] at hx
  have hbelow' : ∀ y : Int, lowestLineToClear < y → y ≤ 17 → f y 1 ≠ '=' := by
    intro y hy1 hy2
    have hy := hbelow y.toNat (by omega) (by omega)
    rwa [show ((y.toNat : Nat) : Int) = y by omega] at hy
  have hmain := clearLinesLoop_spec numLinesToClear.toNat f numLinesToClear
    lowestLineToClear htop' hL2 hL16 hmark hbelow' hn le_rfl
  unfold FIELD_WIDTH FIELD_HEIGHT
  exact ⟨fun y x h => hmain.1 y x (by omega : x < 1 ∨ 10 < x ∨ y < 0 ∨ lowestLineToClear < y),
    fun y x h1 h2 h3 h4 => hmain.2.1 y x h1 h2 h3 (by omega),
    fun z x h1 h2 h3 h4 h5 => hmain.2.2.1 z x h1 h2 h3 h4 (by omega),
    fun y h1 h2 => hmain.2.2.2 y h1 (by omega)⟩

theorem c1_witness :
    ((∀ k : Nat, k < 10 →
        clearDemoField 0 ((k : Int) + 1) = ' ' ∧ clearDemoField 1 ((k : Int) + 1) = ' ') ∧
      (2 : Int) ≤ 15 ∧ (15 : Int) ≤ 16 ∧
      clearDemoField 15 1 = '=' ∧
      (∀ k : Nat, k < 18 → (15 : Int) < (k : Int) → clearDemoField (k : Int) 1 ≠ '=') ∧
      (3 : Int) = (countEqLinesUpTo clearDemoField (15 : Int).toNat : Int)) ∧
    ((∀ y x : Int, (x < 1 ∨ FIELD_WIDTH - 2 < x ∨ y < 0 ∨ (15 : Int) < y) →
        clearLinesFromField clearDemoField 3 15 y x = clearDemoField y x) ∧
      (∀ y x : Int, 0 ≤ y → y < 3 → 1 ≤ x → x ≤ FIELD_WIDTH - 2 →
        clearLinesFromField clearDemoField 3 15 y x = ' ') ∧
      (∀ z x : Int, 0 ≤ z → z ≤ 15 → clearDemoField z 1 ≠ '=' →
        1 ≤ x → x ≤ FIELD_WIDTH - 2 →
        clearLinesFromField clearDemoField 3 15
          (z + countEqBetween clearDemoField z 15) x = clearDemoField z x) ∧
      (∀ y : Int, 0 ≤ y → y ≤ FIELD_HEIGHT - 1 →
        clearLinesFromField clearDemoField 3 15 y 1 ≠ '=')) :=
  ⟨⟨by decide, by decide, by decide, by decide, by decide, by decide⟩,
    c1_clearLinesFromField_spec clearDemoField 3 15 (by decide) (by decide) (by decide)
      (by decide) (by decide) (by decide)⟩

/-- A fold whose every step leaves cell `(yy, xx)` alone leaves it
alone. -/
theorem foldl_preserve {β : Type} (step : Field → β → Field) (yy xx : Int) :
    ∀ (l : List β) (g : Field),
      (∀ (g' : Field) (b : β), b ∈ l → step g' b yy xx = g' yy xx) →
      (l.foldl step g) yy xx = g yy xx := by
  intro l
  induction l with
  | nil => intro g _; rfl
  | cons b rest ih =>
    intro g h
    rw [List.foldl_cons, ih (step g b) (fun g' b' hb' => h g' b' (List.mem_cons_of_mem b hb'))]
    exact h g b (List.mem_cons_self b rest)

/-- The lock-merge writes only at the cells its filled sprite cells map
to. -/
theorem addPieceToField_outside (f : Field) (piece : List Char)
    (currentX currentY rotation : Int) (yy xx : Int)
    (h : ∀ dy : Nat, dy < (getSideLength piece.length).toNat →
      ∀ dx : Nat, dx < (getSideLength piece.length).toNat →
      spriteAt piece (getPieceIndexForRotation piece.length (getSideLength piece.length)
        dx dy rotation) ≠ ' ' →
      ¬(yy = currentY + (dy : Int) ∧ xx = currentX + (dx : Int))) :
    addPieceToField f piece currentX currentY rotation yy xx = f yy xx := by
  unfold addPieceToField
  apply foldl_preserve
  intro g' dy hdy
  apply foldl_preserve
  intro g'' dx hdx
  by_cases hfill : spriteAt piece
      (getPieceIndexForRotation piece.length (getSideLength piece.length)
        (dx : Int) (dy : Int) rotation) = ' '
  · rw [if_neg (by simpa using hfill)]
  · rw [if_pos hfill, setCell_apply]
    rw [if_neg ?hne]
    case hne =>
      rintro ⟨h1, h2⟩
      exact h dy (List.mem_range.mp hdy) dx (List.mem_range.mp hdx) hfill ⟨h1, h2⟩

/-- Pointwise characterization of the detection pass on an arbitrary
field. -/
theorem checkLines_fst_apply (g : Field) (currentY sideLength : Int) (r c : Int) :
    (checkLines g currentY sideLength).1 r c =
      if 0 ≤ r - currentY ∧ r - currentY < ((sideLength.toNat : Nat) : Int) ∧ r ≤ 16 ∧
          rowIsFull g r = true ∧ 1 ≤ c ∧ c ≤ 10 then '='
      else g r c := by
  unfold checkLines
  rw [List.range_eq_range', checkLinesAux_field]
  refine if_congr ⟨?_, ?_⟩ rfl rfl
  · rintro ⟨h1, h2, h3⟩
    exact ⟨by omega, by omega, h3⟩
  · rintro ⟨h1, h2, h3⟩
    exact ⟨by omega, by omega, h3⟩

/-- The recorded lowest line to clear stays in `[2, 16]` whenever any
line was recorded, provided the piece row is at least 2. -/
theorem checkLinesAux_low (Y : Int) :
    ∀ (ys : List Nat) (f : Field) (num low : Int),
      (0 < num → 2 ≤ low ∧ low ≤ 16) → 2 ≤ Y →
      (0 < (checkLinesAux f Y ys num low).2.1 →
        2 ≤ (checkLinesAux f Y ys num low).2.2 ∧
          (checkLinesAux f Y ys num low).2.2 ≤ 16) := by
  intro ys
  induction ys with
  | nil =>
    intro f num low hpre _
    exact hpre
  | cons y rest ih =>
    intro f num low hpre hY
    unfold checkLinesAux
    by_cases hstop : FIELD_HEIGHT - 1 ≤ Y + (y : Int)
    · rw [if_pos hstop]
      exact hpre
    · rw [if_neg hstop]
      by_cases hfull : rowIsFull f (Y + (y : Int)) = true
      · rw [if_pos hfull]
        apply ih
        · intro _
          unfold FIELD_HEIGHT at hstop
          constructor <;> omega
        · exact hY
      · rw [if_neg hfull]
        exact ih f num low hpre hY

/-- The clear-lines loop never writes outside interior columns or below
(or at) its starting `lowestLineToClear`, whatever the arguments. -/
theorem clearLinesLoop_outside :
    ∀ (fuel : Nat) (f : Field) (n L y x : Int),
      (x < 1 ∨ 10 < x ∨ y < 0 ∨ L < y) →
      clearLinesLoop fuel f n L y x = f y x := by
  intro fuel
  induction fuel with
  | zero => intro f n L y x _; rfl
  | succ fuel ih =>
    intro f n L y x hy
    rw [clearLinesLoop_succ]
    by_cases hn0 : n ≤ 0
    · rw [if_pos hn0]
    · rw [if_neg hn0]
      have hR : 1 ≤ 1 + (numEqRowsFrom f (L - 1).toNat : Int) := by omega
      have hout1 : shiftRowsDown f L (1 + (numEqRowsFrom f (L - 1).toNat : Int)) y x =
          f y x := by
        rw [shiftRowsDown_apply f L _ hR]
        have hno : ¬(0 ≤ y ∧ y ≤ L ∧ 1 ≤ x ∧ x ≤ 10) := by
          rintro ⟨k1, k2, k3, k4⟩
          rcases hy with h | h | h | h <;> omega
        rw [if_neg hno]
      by_cases hn1 : n - (1 + (numEqRowsFrom f (L - 1).toNat : Int)) ≤ 0
      · rw [if_pos hn1]
        exact hout1
      · rw [if_neg hn1]
        rcases hfind : findEqRowBelow
            (shiftRowsDown f L (1 + (numEqRowsFrom f (L - 1).toNat : Int))) L.toNat
            with _ | next
        · exact hout1
        · have hnlt := ((findEqRowBelow_spec _ L.toNat).1 next hfind).1
          have hrec := ih (shiftRowsDown f L (1 + (numEqRowsFrom f (L - 1).toNat : Int)))
            (n - (1 + (numEqRowsFrom f (L - 1).toNat : Int))) (next : Int) y x
            (by rcases hy with h | h | h | h
                · exact Or.inl h
                · exact Or.inr (Or.inl h)
                · exact Or.inr (Or.inr (Or.inl h))
                · exact Or.inr (Or.inr (Or.inr (by omega))))
          exact hrec.trans hout1

/-- The clear-lines loop keeps rows 0 and 1 blank inside the borders. -/
theorem clearLinesLoop_top_blank :
    ∀ (fuel : Nat) (f : Field) (n L : Int),
      (∀ x : Int, 1 ≤ x → x ≤ 10 → f 0 x = ' ' ∧ f 1 x = ' ') →
      ∀ x : Int, 1 ≤ x → x ≤ 10 →
        clearLinesLoop fuel f n L 0 x = ' ' ∧ clearLinesLoop fuel f n L 1 x = ' ' := by
  intro fuel
  induction fuel with
  | zero =>
    intro f n L hb x hx1 hx2
    exact hb x hx1 hx2
  | succ fuel ih =>
    intro f n L hb x hx1 hx2
    rw [clearLinesLoop_succ]
    by_cases hn0 : n ≤ 0
    · rw [if_pos hn0]
      exact hb x hx1 hx2
    · rw [if_neg hn0]
      have hR : 1 ≤ 1 + (numEqRowsFrom f (L - 1).toNat : Int) := by omega
      have hb1 : ∀ x' : Int, 1 ≤ x' → x' ≤ 10 →
          shiftRowsDown f L (1 + (numEqRowsFrom f (L - 1).toNat : Int)) 0 x' = ' ' ∧
          shiftRowsDown f L (1 + (numEqRowsFrom f (L - 1).toNat : Int)) 1 x' = ' ' := by
        intro x' hx1' hx2'
        constructor
        · rw [shiftRowsDown_apply f L _ hR]
          by_cases hL : (0 : Int) ≤ L
          · rw [if_pos ⟨le_rfl, hL, hx1', hx2'⟩, if_pos (by omega)]
          · rw [if_neg (by rintro ⟨-, k, -⟩; omega)]
            exact (hb x' hx1' hx2').1
        · rw [shiftRowsDown_apply f L _ hR]
          by_cases hL : (1 : Int) ≤ L
          · rw [if_pos ⟨by omega, hL, hx1', hx2'⟩, if_pos (by omega)]
          · rw [if_neg (by rintro ⟨-, k, -⟩; omega)]
            exact (hb x' hx1' hx2').2
      by_cases hn1 : n - (1 + (numEqRowsFrom f (L - 1).toNat : Int)) ≤ 0
      · rw [if_pos hn1]
        exact hb1 x hx1 hx2
      · rw [if_neg hn1]
        rcases hfind : findEqRowBelow
            (shiftRowsDown f L (1 + (numEqRowsFrom f (L - 1).toNat : Int))) L.toNat
            with _ | next
        · exact hb1 x hx1 hx2
        · exact ih _ _ (next : Int) hb1 x hx1 hx2

/-- One complete lock event of the game loop (`main.cpp` lines 229-298
and 300-346): the piece is merged into the field, the spanned rows are
scanned and full ones rewritten with `'='`, and, if any line was
recorded, `clearLinesFromField` compacts the board. -/
def lockStep (f : Field) (piece : List Char) (currentX currentY rotation : Int) : Field :=
  let merged := addPieceToField f piece currentX currentY rotation
  let res := checkLines merged currentY (getSideLength piece.length)
  if 0 < res.2.1 then clearLinesFromField res.1 res.2.1 res.2.2 else res.1

/-- The fields the game can reach: the initial bordered field, followed
by any number of lock events.  A lock only happens at a position the
collision check accepted (the piece got there through validated moves)
and with the piece's top row at 2 or below — at `currentY ≤ 1` the game
ends instead of merging (`main.cpp` line 223). -/
inductive Reachable : Field → Prop where
  | init : Reachable initField
  | lock (f : Field) (piece : List Char) (currentX currentY rotation : Int) :
      Reachable f →
      (rotation = 0 ∨ rotation = 1 ∨ rotation = 2 ∨ rotation = 3) →
      2 ≤ currentY →
      pieceDoesFit f piece currentX currentY rotation = true →
      Reachable (lockStep f piece currentX currentY rotation)

theorem lockStep_eq (f : Field) (piece : List Char) (currentX currentY rotation : Int) :
    lockStep f piece currentX currentY rotation =
      if 0 < (checkLines (addPieceToField f piece currentX currentY rotation) currentY
          (getSideLength piece.length)).2.1 then
        clearLinesFromField
          (checkLines (addPieceToField f piece currentX currentY rotation) currentY
            (getSideLength piece.length)).1
          (checkLines (addPieceToField f piece currentX currentY rotation) currentY
            (getSideLength piece.length)).2.1
          (checkLines (addPieceToField f piece currentX currentY rotation) currentY
            (getSideLength piece.length)).2.2
      else
        (checkLines (addPieceToField f piece currentX currentY rotation) currentY
          (getSideLength piece.length)).1 := rfl

/-- C6: in every reachable field, the side border columns and the bottom
border row still hold `'#'`: merging writes only to cells the collision
check saw blank (hence interior), detection rewrites only interior
columns of rows above the bottom border, and compaction writes only
interior columns of rows at or above the recorded lowest line, which is
at most 16. -/
theorem c6_border_invariant (f : Field) (hre : Reachable f) :
    ∀ y x : Int, 0 ≤ y → y ≤ FIELD_HEIGHT - 1 → 0 ≤ x → x ≤ FIELD_WIDTH - 1 →
      (x = 0 ∨ x = FIELD_WIDTH - 1 ∨ y = FIELD_HEIGHT - 1) →
      f y x = '#' := by
  induction hre with
  | init =>
    intro y x _ _ _ _ hb
    unfold initField
    rw [if_pos hb]
  | lock f piece X Y rot hre hrot hY2 hfit IH =>
    intro y x hy0 hy1 hx0 hx1 hb
    simp only [FIELD_WIDTH, FIELD_HEIGHT] at hy1 hx1 hb
    have hfit' := (pieceDoesFit_eq_true_iff f piece X Y rot).mp hfit
    have hcell : ∀ dy : Nat, dy < (getSideLength piece.length).toNat →
        ∀ dx : Nat, dx < (getSideLength piece.length).toNat →
        pieceFilled piece dx dy rot →
        1 ≤ X + (dx : Int) ∧ X + (dx : Int) ≤ 10 ∧
          2 ≤ Y + (dy : Int) ∧ Y + (dy : Int) ≤ 16 := by
      intro dy hdy dx hdx hfl
      obtain ⟨h1, h2, h3, h4⟩ := hfit' dy hdy dx hdx hfl
      simp only [FIELD_WIDTH] at h2
      simp only [FIELD_HEIGHT] at h3
      have hc11 : X + (dx : Int) ≠ 11 := by
        intro hc
        have hIH := IH (Y + (dy : Int)) 11 (by omega) (by unfold FIELD_HEIGHT; omega)
          (by omega) (by unfold FIELD_WIDTH; omega)
          (Or.inr (Or.inl (by unfold FIELD_WIDTH; norm_num)))
        rw [hc] at h4
        rw [h4] at hIH
        exact absurd hIH (by decide)
      have hr17 : Y + (dy : Int) ≠ 17 := by
        intro hr
        have hIH := IH (Y + (dy : Int)) (X + (dx : Int)) (by omega)
          (by unfold FIELD_HEIGHT; omega) (by omega) (by unfold FIELD_WIDTH; omega)
          (Or.inr (Or.inr (by unfold FIELD_HEIGHT; omega)))
        rw [h4] at hIH
        exact absurd hIH (by decide)
      exact ⟨h1, by omega, by omega, by omega⟩
    have hmerge : addPieceToField f piece X Y rot y x = f y x := by
      apply addPieceToField_outside
      intro dy hdy dx hdx hfl
      obtain ⟨k1, k2, k3, k4⟩ := hcell dy hdy dx hdx hfl
      rintro ⟨e1, e2⟩
      rcases hb with h | h | h <;> omega
    have hcheck : (checkLines (addPieceToField f piece X Y rot) Y
        (getSideLength piece.length)).1 y x = f y x := by
      rw [checkLines_fst_apply]
      rw [if_neg (by rintro ⟨-, -, k3, -, k5, k6⟩; rcases hb with h | h | h <;> omega)]
      exact hmerge
    rw [lockStep_eq]
    by_cases hclear : 0 < (checkLines (addPieceToField f piece X Y rot) Y
        (getSideLength piece.length)).2.1
    · rw [if_pos hclear]
      have hlow : 2 ≤ (checkLines (addPieceToField f piece X Y rot) Y
            (getSideLength piece.length)).2.2 ∧
          (checkLines (addPieceToField f piece X Y rot) Y
            (getSideLength piece.length)).2.2 ≤ 16 :=
        checkLinesAux_low Y (List.range (getSideLength piece.length).toNat)
          (addPieceToField f piece X Y rot) 0 0 (fun h => absurd h (by norm_num)) hY2 hclear
      unfold clearLinesFromField
      rw [clearLinesLoop_outside _ _ _ _ y x
        (by rcases hb with h | h | h
            · exact Or.inl (by omega)
            · exact Or.inr (Or.inl (by omega))
            · exact Or.inr (Or.inr (Or.inr (by omega))))]
      rw [hcheck]
      exact IH y x hy0 (by unfold FIELD_HEIGHT; omega) hx0 (by unfold FIELD_WIDTH; omega)
        (by unfold FIELD_WIDTH FIELD_HEIGHT; omega)
    · rw [if_neg hclear, hcheck]
      exact IH y x hy0 (by unfold FIELD_HEIGHT; omega) hx0 (by unfold FIELD_WIDTH; omega)
        (by unfold FIELD_WIDTH FIELD_HEIGHT; omega)

theorem c6_witness :
    ((0 : Int) ≤ 17 ∧ (17 : Int) ≤ FIELD_HEIGHT - 1 ∧ (0 : Int) ≤ 5 ∧
      (5 : Int) ≤ FIELD_WIDTH - 1 ∧
      ((5 : Int) = 0 ∨ (5 : Int) = FIELD_WIDTH - 1 ∨ (17 : Int) = FIELD_HEIGHT - 1)) ∧
    initField 17 5 = '#' :=
  ⟨by decide,
    c6_border_invariant initField Reachable.init 17 5 (by decide) (by decide) (by decide)
      (by decide) (by decide)⟩

/-- C10: in every reachable field, the interior cells of rows 0 and 1
are blank: a piece only merges when its top row is at 2 or below, so the
lock writes only rows ≥ 2, detection only marks rows at or below the
piece's top row, and compaction only moves content downward while
blanking the topmost rows. -/
theorem c10_top_rows_blank (f : Field) (hre : Reachable f) :
    ∀ x : Int, 1 ≤ x → x ≤ FIELD_WIDTH - 2 → f 0 x = ' ' ∧ f 1 x = ' ' := by
  induction hre with
  | init =>
    intro x hx1 hx2
    unfold FIELD_WIDTH at hx2
    constructor <;>
      (unfold initField; rw [if_neg (by unfold FIELD_WIDTH FIELD_HEIGHT; rintro (h | h | h) <;> omega)])
  | lock f piece X Y rot hre hrot hY2 hfit IH =>
    intro x hx1 hx2
    unfold FIELD_WIDTH at hx2
    have hcheck : ∀ (r x' : Int), (r = 0 ∨ r = 1) →
        (checkLines (addPieceToField f piece X Y rot) Y
          (getSideLength piece.length)).1 r x' = f r x' := by
      intro r x' hr
      rw [checkLines_fst_apply]
      rw [if_neg (by rintro ⟨k1, -⟩; rcases hr with h | h <;> omega)]
      apply addPieceToField_outside
      intro dy hdy dx hdx hfl
      rintro ⟨e1, e2⟩
      rcases hr with h | h <;> omega
    rw [lockStep_eq]
    by_cases hclear : 0 < (checkLines (addPieceToField f piece X Y rot) Y
        (getSideLength piece.length)).2.1
    · rw [if_pos hclear]
      have hb2 : ∀ x' : Int, 1 ≤ x' → x' ≤ 10 →
          (checkLines (addPieceToField f piece X Y rot) Y
            (getSideLength piece.length)).1 0 x' = ' ' ∧
          (checkLines (addPieceToField f piece X Y rot) Y
            (getSideLength piece.length)).1 1 x' = ' ' := by
        intro x' h1 h2
        have hI := IH x' h1 (by unfold FIELD_WIDTH; omega)
        rw [hcheck 0 x' (Or.inl rfl), hcheck 1 x' (Or.inr rfl)]
        exact hI
      unfold clearLinesFromField
      exact clearLinesLoop_top_blank _ _ _ _ hb2 x hx1 (by omega)
    · rw [if_neg hclear]
      constructor
      · rw [hcheck 0 x (Or.inl rfl)]
        exact (IH x hx1 (by unfold FIELD_WIDTH; omega)).1
      · rw [hcheck 1 x (Or.inr rfl)]
        exact (IH x hx1 (by unfold FIELD_WIDTH; omega)).2

theorem c10_witness :
    ((1 : Int) ≤ 5 ∧ (5 : Int) ≤ FIELD_WIDTH - 2) ∧
      initField 0 5 = ' ' ∧ initField 1 5 = ' ' :=
  ⟨by decide, c10_top_rows_blank initField Reachable.init 5 (by decide) (by decide)⟩

end TetrisCurses
